import Mathlib

/-!
Verification of the mesh exporter in `custom_mesh_export.py` of
vknauss/custom-blender-utils.

The exporter reads a host mesh (vertices, loops ("corners"), polygons, a
triangulation and optional UV layers), clusters per-corner attribute values
per vertex under a tolerance, enumerates unique (uv-cluster, normal-cluster)
permutations per vertex, aggregates skinning influences, and serializes an
interleaved binary container.

Coordinates are modelled with exact rationals (`ℚ`); the source compares
vector lengths against the literal `0.001`, which we express equivalently as
squared distance against `epsSq = 0.001^2 = 1/1000000` (both sides of the
source comparison are nonnegative).  IEEE float bit patterns are not
modelled: a serialized float is an abstract byte tagged with the value it
encodes and its byte position, which preserves byte counts and layout.
-/

/-- 2-component vector (UV coordinate). -/
structure Vec2 where
  x : ℚ
  y : ℚ
deriving DecidableEq, Repr

/-- 3-component vector (position / normal). -/
structure Vec3 where
  x : ℚ
  y : ℚ
  z : ℚ
deriving DecidableEq, Repr

def v2zero : Vec2 := ⟨0, 0⟩

def v3zero : Vec3 := ⟨0, 0, 0⟩

/-- Squared Euclidean distance on UVs; `(c_uv - uv).length < 0.001` in the
source is equivalent to `dsq2 c_uv uv < epsSq`. -/
def dsq2 (a b : Vec2) : ℚ := (a.x - b.x) ^ 2 + (a.y - b.y) ^ 2

/-- Squared Euclidean distance on normals. -/
def dsq3 (a b : Vec3) : ℚ := (a.x - b.x) ^ 2 + (a.y - b.y) ^ 2 + (a.z - b.z) ^ 2

/-- The square of the clustering tolerance 0.001 used at lines 33 and 64. -/
def epsSq : ℚ := 1 / 1000000

/-- Line 178: `Vector((-vert.co.x, vert.co.z, vert.co.y))` — the fixed axis
remap (x, y, z) → (−x, z, y). -/
def remapVec (v : Vec3) : Vec3 := ⟨-v.x, v.z, v.y⟩

/-- Inverse of `remapVec`.  The remap (x, y, z) → (−x, z, y) is an
involution: applying it twice gives (x, y, z) back, so the inverse is the
same map. -/
def remapVecInv (v : Vec3) : Vec3 := ⟨-v.x, v.z, v.y⟩

/-- One element of `vert.groups`: a bone-group index and a weight. -/
structure VertexGroupEntry where
  group : Nat
  weight : ℚ
deriving DecidableEq, Repr

/-- One element of `mesh.vertices`: position, vertex normal, influence list. -/
structure MVertex where
  co : Vec3
  normal : Vec3
  groups : List VertexGroupEntry
deriving DecidableEq, Repr

/-- One element of `mesh.loops` (a corner); its `index` field is its position
in the list, so only `vertex_index` is stored. -/
structure MLoop where
  vertex_index : Nat
deriving DecidableEq, Repr

/-- One element of `mesh.polygons`. -/
structure MPolygon where
  loop_indices : List Nat
  use_smooth : Bool
  normal : Vec3
deriving DecidableEq, Repr

/-- One element of `mesh.loop_triangles`: exactly three loop indices. -/
structure MTriangle where
  loops : Nat × Nat × Nat
deriving DecidableEq, Repr

/-- The host mesh data read by `export_mesh`.  `uv_layers` holds, per UV
layer, the per-loop UV data (`uv_layer.data[i].uv`).  `loop_triangles` is the
triangulation (the source calls `calc_loop_triangles()` when it is absent; we
model the post-computation state). -/
structure Mesh where
  vertices : List MVertex
  loops : List MLoop
  polygons : List MPolygon
  loop_triangles : List MTriangle
  uv_layers : List (List Vec2)
deriving DecidableEq, Repr

def mvdefault : MVertex := ⟨v3zero, v3zero, []⟩

/-! ## Attribute clustering (`map_vertex_uvs`, lines 24-41, and
`map_vertex_normals`, lines 47-75)

Both functions share the same per-vertex cluster update: scan the vertex's
cluster list in insertion order, assign the corner to the first cluster whose
representative is within tolerance, else append a new cluster.  We factor
that update into `insertCorner`, generic over the value type and its squared
distance. -/

/-- A cluster: a representative value and the loop indices mapped to it. -/
abbrev Cluster (α : Type) := α × List Nat

/-- Lines 30-40 / 61-73: scan the cluster list in order; on the first
representative within tolerance, append the loop index to that cluster and
return its position; otherwise append a new cluster `(v, [li])` at the end
and return its position. -/
def insertCorner {α : Type} (dsq : α → α → ℚ) (v : α) (li : Nat) :
    List (Cluster α) → Nat × List (Cluster α)
  | [] => (0, [(v, [li])])
  | (rep, inds) :: rest =>
    if dsq v rep < epsSq then
      (0, (rep, inds ++ [li]) :: rest)
    else
      let r := insertCorner dsq v li rest
      (r.1 + 1, (rep, inds) :: r.2)

/-- State of a clustering pass: per-vertex cluster lists and the per-loop
assigned cluster index (`loop_uv_inds` / `loop_normal_inds`). -/
structure ClusterState (α : Type) where
  clusters : List (List (Cluster α))
  loopInds : List Nat
deriving DecidableEq, Repr

/-- Process one corner `(loopIndex, vertexIndex, value)`. -/
def clusterStep {α : Type} (dsq : α → α → ℚ) (st : ClusterState α)
    (c : Nat × Nat × α) : ClusterState α :=
  let r := insertCorner dsq c.2.2 c.1 (st.clusters.getD c.2.1 [])
  ⟨st.clusters.set c.2.1 r.2, st.loopInds.set c.1 r.1⟩

/-- Left-to-right processing of a corner stream. -/
def clusterFold {α : Type} (dsq : α → α → ℚ) (st : ClusterState α) :
    List (Nat × Nat × α) → ClusterState α
  | [] => st
  | c :: rest => clusterFold dsq (clusterStep dsq st c) rest

/-- Run a clustering pass from the initial state (`[[] for _ in vertices]`,
`[0] * len(loops)`). -/
def clusterCorners {α : Type} (dsq : α → α → ℚ) (numVerts numLoops : Nat)
    (corners : List (Nat × Nat × α)) : ClusterState α :=
  clusterFold dsq ⟨List.replicate numVerts [], List.replicate numLoops 0⟩ corners

/-- The corner stream of the UV pass, line 27:
`zip(mesh.loops, uv_layer.data)` with `loop.index` as loop index. -/
def uvCorners (mesh : Mesh) (data : List Vec2) : List (Nat × Nat × Vec2) :=
  (mesh.loops.zip data).enum.map fun p => (p.1, p.2.1.vertex_index, p.2.2)

/-- Errors that abort the export (Python exceptions escaping `export_mesh`). -/
inductive ExpErr where
  /-- `AttributeError`, e.g. `None.data` at line 27 when no UV layer exists. -/
  | attributeError
  /-- `struct.error` from `struct.pack` on an out-of-range argument. -/
  | structError
  /-- `TypeError` from unpacking a non-iterable (`None`) into `struct.pack`. -/
  | typeError
deriving DecidableEq, Repr

/-- Lines 24-41.  `uv_layer` is `mesh.uv_layers[0] if mesh.uv_layers else
None`; with `None`, line 27 evaluates `uv_layer.data` and raises
`AttributeError` before any corner is processed. -/
def map_vertex_uvs (mesh : Mesh) (uv_layer : Option (List Vec2)) :
    Except ExpErr (ClusterState Vec2) :=
  match uv_layer with
  | none => .error .attributeError
  | some data =>
    .ok (clusterCorners dsq2 mesh.vertices.length mesh.loops.length
      (uvCorners mesh data))

/-- Lines 52-58: the corners contributed by one polygon; a flat-shaded
polygon contributes its face normal at every corner, a smooth one the
corner's vertex normal. -/
def polygonCorners (mesh : Mesh) (poly : MPolygon) : List (Nat × Nat × Vec3) :=
  poly.loop_indices.map fun i =>
    let vi := (mesh.loops.getD i ⟨0⟩).vertex_index
    (i, vi,
      if poly.use_smooth then (mesh.vertices.getD vi mvdefault).normal
      else poly.normal)

/-- The corner stream of the normal pass: polygons in order, each expanded
to its corners. -/
def normalCorners (mesh : Mesh) : List (Nat × Nat × Vec3) :=
  (mesh.polygons.map (polygonCorners mesh)).flatten

/-- Lines 47-75. -/
def map_vertex_normals (mesh : Mesh) : ClusterState Vec3 :=
  clusterCorners dsq3 mesh.vertices.length mesh.loops.length (normalCorners mesh)

/-! ## Permutation enumeration (`find_vertex_permutations`, lines 90-109) -/

/-- State: per-vertex permutation lists `(outputIndex, uvInd, normalInd)`,
per-loop output index, and the running counter `c_index`. -/
structure PermState where
  perms : List (List (Nat × Nat × Nat))
  loopInds : List Nat
  cIndex : Nat
deriving DecidableEq, Repr

/-- Lines 99-103: scan the whole permutation list (the loop has no `break`;
a later match would overwrite an earlier one, hence the fold keeping the last
match). -/
def findPermLast (cu cn : Nat) (acc : Option Nat) :
    List (Nat × Nat × Nat) → Option Nat
  | [] => acc
  | p :: rest =>
    findPermLast cu cn (if cu = p.2.1 ∧ cn = p.2.2 then some p.1 else acc) rest

/-- Process one corner `(loopIndex, vertexIndex, uvInd, normalInd)`:
if its (uv, normal) pair is already present, record that permutation's output
index for the loop; otherwise append a new permutation numbered `c_index`. -/
def permStep (st : PermState) (c : Nat × Nat × Nat × Nat) : PermState :=
  let perms := st.perms.getD c.2.1 []
  match findPermLast c.2.2.1 c.2.2.2 none perms with
  | some ind => ⟨st.perms, st.loopInds.set c.1 ind, st.cIndex⟩
  | none =>
    ⟨st.perms.set c.2.1 (perms ++ [(st.cIndex, c.2.2.1, c.2.2.2)]),
     st.loopInds.set c.1 st.cIndex, st.cIndex + 1⟩

/-- Left-to-right processing of the permutation corner stream. -/
def permFold (st : PermState) : List (Nat × Nat × Nat × Nat) → PermState
  | [] => st
  | c :: rest => permFold (permStep st c) rest

/-- Line 96: `zip(mesh.loops, loop_uv_inds, loop_normal_inds)` with
`loop.index` as loop index. -/
def permCorners (mesh : Mesh) (uvInds nInds : List Nat) :
    List (Nat × Nat × Nat × Nat) :=
  (mesh.loops.zip (uvInds.zip nInds)).enum.map fun p =>
    (p.1, p.2.1.vertex_index, p.2.2.1, p.2.2.2)

/-- Lines 90-109. -/
def find_vertex_permutations (mesh : Mesh) (uvInds nInds : List Nat) : PermState :=
  permFold ⟨List.replicate mesh.vertices.length [], List.replicate mesh.loops.length 0, 0⟩
    (permCorners mesh uvInds nInds)

/-- Line 141: concatenate, per triangle, the permutation index of each of its
three loops. -/
def tri_inds (mesh : Mesh) (loopInds : List Nat) : List Nat :=
  (mesh.loop_triangles.map fun t =>
    [loopInds.getD t.loops.1 0, loopInds.getD t.loops.2.1 0,
     loopInds.getD t.loops.2.2 0]).flatten

/-! ## Skinning aggregation (lines 150-173) -/

/-- The three per-vertex skinning accumulators of lines 151-153. -/
structure JointState where
  jointInds : List Nat
  weights : List ℚ
  numJoints : Nat
deriving DecidableEq, Repr

/-- Lines 154-164: fill up to 4 slots in influence order; once full, replace
the first slot whose weight is strictly below the new influence's weight
(`for i in range(num_joints)` with `break` — a first-match scan). -/
def jointStep (st : JointState) (g : VertexGroupEntry) : JointState :=
  if st.numJoints < 4 then
    ⟨st.jointInds.set st.numJoints g.group,
     st.weights.set st.numJoints g.weight, st.numJoints + 1⟩
  else
    match st.weights.findIdx? (fun w => decide (w < g.weight)) with
    | some i => ⟨st.jointInds.set i g.group, st.weights.set i g.weight, st.numJoints⟩
    | none => st

def jointFold (st : JointState) : List VertexGroupEntry → JointState
  | [] => st
  | g :: rest => jointFold (jointStep st g) rest

/-- Lines 151-164 driven over `vert.groups`. -/
def selectJoints (groups : List VertexGroupEntry) : JointState :=
  jointFold ⟨[0, 0, 0, 0], [0, 0, 0, 0], 0⟩ groups

/-- Lines 165-170.  The source computes `weight_sum` and then runs
`for weight in weights: weight = weight / weight_sum`, which rebinds the
loop-local name `weight` and never writes back into the list `weights`;
the list is left unchanged, so this models as the identity. -/
def normalizeWeights (ws : List ℚ) : List ℚ := ws

/-- The normalization step as the spec words it ("divide all 4 weights by
their sum if the sum is > 0; otherwise leave all weights at 0"), for
comparison with `normalizeWeights`. -/
def spec_normalizeWeights (ws : List ℚ) : List ℚ :=
  if 0 < ws.sum then ws.map (fun w => w / ws.sum) else ws

/-- Modelled from the spec: the bone-index resolution the spec describes for
the SkinningAggregator ("resolved via an attached skeleton, matched by bone
name; absent skeleton falls back to raw group index"; unresolvable names also
fall back to the raw index).  No such resolution exists in
`custom_mesh_export.py`; this definition follows the spec's words so the
emitted indices can be compared against it.  `groupNames` maps a raw
vertex-group index to its name; `skeleton` is the attached skeleton's ordered
bone-name list. -/
def spec_resolveBoneIndex (skeleton : Option (List String))
    (groupNames : List String) (g : Nat) : Nat :=
  match skeleton with
  | none => g
  | some bones =>
    match groupNames.getD g "" with
    | n => (bones.findIdx? (fun b => decide (b = n))).getD g

/-! ## Output vertex assembly (lines 143-180) -/

/-- The five per-output-vertex element arrays of lines 144-148.  A `none`
entry models the Python `None` placeholder that was never overwritten. -/
structure OutArrays where
  positions : List (Option Vec3)
  normals : List (Option Vec3)
  uvs : List (Option Vec2)
  jointWeights : List (Option (List ℚ))
  jointIndices : List (Option (List Nat))
deriving DecidableEq, Repr

/-- Lines 175-180: write one permutation's position, normal and uv.  The
position is axis-remapped (line 178); the normal and uv are stored as read
from the cluster representatives (lines 176-177, 179-180). -/
def setPerm (vu : List (List (Cluster Vec2))) (vn : List (List (Cluster Vec3)))
    (vi : Nat) (vert : MVertex) (a : OutArrays) (p : Nat × Nat × Nat) : OutArrays :=
  let normal := ((vn.getD vi []).getD p.2.2 (v3zero, [])).1
  let uv := ((vu.getD vi []).getD p.2.1 (v2zero, [])).1
  { a with
    positions := a.positions.set p.1 (some (remapVec vert.co)),
    normals := a.normals.set p.1 (some normal),
    uvs := a.uvs.set p.1 (some uv) }

/-- Lines 171-173: copy the selected joints to every permutation of the
vertex. -/
def setJoints (a : OutArrays) (perms : List (Nat × Nat × Nat))
    (ji : List Nat) (ws : List ℚ) : OutArrays :=
  perms.foldl (fun a p =>
    { a with
      jointWeights := a.jointWeights.set p.1 (some ws),
      jointIndices := a.jointIndices.set p.1 (some ji) }) a

/-- Lines 149-180 for one `(vert, perms)` pair (`vi` is `vert.index`). -/
def vertexStep (skin : Bool) (vu : List (List (Cluster Vec2)))
    (vn : List (List (Cluster Vec3))) (a : OutArrays)
    (item : Nat × MVertex × List (Nat × Nat × Nat)) : OutArrays :=
  let a1 :=
    if skin then
      let js := selectJoints item.2.1.groups
      setJoints a item.2.2 js.jointInds (normalizeWeights js.weights)
    else a
  item.2.2.foldl (setPerm vu vn item.1 item.2.1) a1

/-- Lines 143-180: build the element arrays from the cluster and permutation
tables. -/
def exportArrays (mesh : Mesh) (skin : Bool) (vu : List (List (Cluster Vec2)))
    (vn : List (List (Cluster Vec3))) (vertexPerms : List (List (Nat × Nat × Nat)))
    (num : Nat) : OutArrays :=
  ((mesh.vertices.zip vertexPerms).enum.map fun q => (q.1, q.2.1, q.2.2)).foldl
    (vertexStep skin vu vn)
    ⟨List.replicate num none, List.replicate num none, List.replicate num none,
     if skin then List.replicate num none else [],
     if skin then List.replicate num none else []⟩

/-! ## Binary serialization (lines 182-226)

`f.write(struct.pack(...))` operations are modelled as a list of
`Except ExpErr (List FByte)`: each pack either yields its bytes or raises.
`writeSeq` executes them in order, returning the bytes written before the
first failure. -/

/-- One byte of the output stream.  Integer-valued fields are real bytes; a
32-bit float is four `fpart` bytes tagged with the encoded value and the
byte's position within the float (the IEEE bit pattern is not modelled,
which preserves byte counts and layout exactly). -/
inductive FByte where
  | byte : Nat → FByte
  | fpart : ℚ → Fin 4 → FByte
deriving DecidableEq, Repr

/-- The four little-endian bytes of an `I` (unsigned 32-bit) field. -/
def u32bytes (n : Nat) : List FByte :=
  [.byte (n % 256), .byte (n / 256 % 256), .byte (n / 65536 % 256),
   .byte (n / 16777216 % 256)]

/-- `struct.pack` of one `I` value: raises `struct.error` out of range. -/
def packU32 (n : Nat) : Except ExpErr (List FByte) :=
  if n < 4294967296 then .ok (u32bytes n) else .error .structError

/-- `struct.pack` of one `B` value: raises `struct.error` out of range. -/
def packU8 (n : Nat) : Except ExpErr (List FByte) :=
  if n < 256 then .ok [.byte n] else .error .structError

/-- The four bytes of one `f` field encoding `q`. -/
def packFloat (q : ℚ) : List FByte :=
  [.fpart q 0, .fpart q 1, .fpart q 2, .fpart q 3]

def packFloats (qs : List ℚ) : List FByte := (qs.map packFloat).flatten

/-- Lines 16-17 `c_str`: `struct.pack("<Ns", s.encode(...))` with
`N = len(s) + 1` — the encoded bytes plus a terminating zero. -/
def c_str (s : String) : List FByte :=
  s.data.map (fun c => FByte.byte c.toNat) ++ [FByte.byte 0]

/-- The `elements` column of one `attrib_infos` row, tagged by its format
string: `<3f` (position, normal), `<2f` (texCoord), `<4f` (jointWeights),
`<4B` (jointIndices). -/
inductive AttrData where
  | vec3 : List (Option Vec3) → AttrData
  | vec2 : List (Option Vec2) → AttrData
  | floats4 : List (Option (List ℚ)) → AttrData
  | bytes4 : List (Option (List Nat)) → AttrData
deriving DecidableEq, Repr

/-- `struct.calcsize` of the attribute's format string (line 196). -/
def AttrData.size : AttrData → Nat
  | .vec3 _ => 12
  | .vec2 _ => 8
  | .floats4 _ => 16
  | .bytes4 _ => 4

/-- Line 223: `struct.pack(format, *(elements[i]))` for one attribute of one
output vertex.  A `none` element is the Python `None` placeholder, and
unpacking it raises `TypeError`; a `4f`/`4B` argument list of the wrong
length, or a `B` value outside 0..255, raises `struct.error`. -/
def AttrData.packElem : AttrData → Nat → Except ExpErr (List FByte)
  | .vec3 xs, i =>
    match xs.getD i none with
    | none => .error .typeError
    | some v => .ok (packFloats [v.x, v.y, v.z])
  | .vec2 xs, i =>
    match xs.getD i none with
    | none => .error .typeError
    | some v => .ok (packFloats [v.x, v.y])
  | .floats4 xs, i =>
    match xs.getD i none with
    | none => .error .typeError
    | some qs =>
      if qs.length = 4 then .ok (packFloats qs) else .error .structError
  | .bytes4 xs, i =>
    match xs.getD i none with
    | none => .error .typeError
    | some ns =>
      if ns.length = 4 ∧ ∀ x ∈ ns, x < 256 then .ok (ns.map FByte.byte)
      else .error .structError

/-- Lines 182-190: the attribute table, in fixed emission order; the two
skinning attributes are appended only when requested. -/
def attrib_infos (skin : Bool) (a : OutArrays) : List (String × AttrData) :=
  [("position", .vec3 a.positions), ("normal", .vec3 a.normals),
   ("texCoord", .vec2 a.uvs)] ++
  (if skin then
    [("jointWeights", .floats4 a.jointWeights),
     ("jointIndices", .bytes4 a.jointIndices)]
   else [])

/-- Lines 192-198: the accumulation loop building `attrib_sizes`,
`attrib_offsets` and `vertex_size` — per attribute, append
`struct.calcsize(format)` to the sizes, append the running `vertex_size` to
the offsets, then add the new size to `vertex_size`. -/
def sizeLoop (infos : List (String × AttrData)) : List Nat × List Nat × Nat :=
  infos.foldl
    (fun st p => (st.1 ++ [p.2.size], st.2.1 ++ [st.2.2], st.2.2 + p.2.size))
    ([], [], 0)

/-- Lines 192-198: `attrib_sizes`. -/
def attribSizes (infos : List (String × AttrData)) : List Nat :=
  (sizeLoop infos).1

/-- Lines 192-198: `attrib_offsets`. -/
def attribOffsets (infos : List (String × AttrData)) : List Nat :=
  (sizeLoop infos).2.1

/-- Lines 192-198: `vertex_size`. -/
def vertexSizeOf (infos : List (String × AttrData)) : Nat :=
  (sizeLoop infos).2.2

def magicBytes : List FByte := "meshfile".data.map fun c => FByte.byte c.toNat

/-- Lines 200-208: `struct.pack(header_fmt, *header)` with
`header_fmt = "<8sB3I"` — magic, attribute count (`B`, range-checked),
vertex size, vertex count and index count (`I`, range-checked); the pack is
atomic, raising `struct.error` when any field is out of range. -/
def headerPack (nattr vsize nverts ninds : Nat) : Except ExpErr (List FByte) :=
  if nattr < 256 ∧ vsize < 4294967296 ∧ nverts < 4294967296 ∧ ninds < 4294967296 then
    .ok (magicBytes ++ [.byte nattr] ++ u32bytes vsize ++ u32bytes nverts
      ++ u32bytes ninds)
  else .error .structError

/-- `struct.pack(attrib_fmt, size, offset)` with `attrib_fmt = "<2I"`,
range-checked and atomic. -/
def pack2I (a b : Nat) : Except ExpErr (List FByte) :=
  if a < 4294967296 ∧ b < 4294967296 then .ok (u32bytes a ++ u32bytes b)
  else .error .structError

/-- Lines 210-218: per attribute, write its null-terminated name then its
(size, offset) record. -/
def attribTableOps (infos : List (String × AttrData)) :
    List (Except ExpErr (List FByte)) :=
  ((List.range infos.length).map fun i =>
    [Except.ok (c_str ((infos.getD i ("", .vec2 [])).1)),
     pack2I ((attribSizes infos).getD i 0) ((attribOffsets infos).getD i 0)]).flatten

/-- Lines 220-223: per output vertex, per attribute, one pack-and-write. -/
def vertexBufOps (infos : List (String × AttrData)) (num : Nat) :
    List (Except ExpErr (List FByte)) :=
  ((List.range num).map fun i => infos.map fun p => p.2.packElem i).flatten

/-- Line 226: `struct.pack("<" + str(len(tri_inds)) + "I", *tri_inds)` — a
single write of the whole index buffer, range-checked atomically. -/
def packU32List (ns : List Nat) : Except ExpErr (List FByte) :=
  if ∀ n ∈ ns, n < 4294967296 then .ok ((ns.map u32bytes).flatten)
  else .error .structError

/-- Execute the write operations in order: the bytes written before the
first failing pack, and the failure when one occurs (`struct.pack` raises
before `f.write` runs, so a failing operation writes nothing). -/
def writeSeq : List (Except ExpErr (List FByte)) → List FByte × Option ExpErr
  | [] => ([], none)
  | .error e :: _ => ([], some e)
  | .ok bs :: rest =>
    let r := writeSeq rest
    (bs ++ r.1, r.2)

/-- The write operations of lines 200-226, in source order. -/
def exportOps (skin : Bool) (a : OutArrays) (num : Nat) (ti : List Nat) :
    List (Except ExpErr (List FByte)) :=
  let infos := attrib_infos skin a
  headerPack infos.length (vertexSizeOf infos) num ti.length ::
    (attribTableOps infos ++ vertexBufOps infos num ++ [packU32List ti])

/-- Line 122: `mesh.uv_layers[0] if mesh.uv_layers else None`, fed into
`map_vertex_uvs` (line 134). -/
def uvStateOf (mesh : Mesh) : Except ExpErr (ClusterState Vec2) :=
  map_vertex_uvs mesh mesh.uv_layers.head?

/-- Line 136: the permutation table built from the two cluster passes. -/
def permStateOf (mesh : Mesh) (uvSt : ClusterState Vec2) : PermState :=
  find_vertex_permutations mesh uvSt.loopInds (map_vertex_normals mesh).loopInds

/-- The element arrays the export computes (lines 143-180), given the UV
clustering succeeded. -/
def arraysFor (mesh : Mesh) (skin : Bool) (uvSt : ClusterState Vec2) : OutArrays :=
  exportArrays mesh skin uvSt.clusters (map_vertex_normals mesh).clusters
    (permStateOf mesh uvSt).perms (permStateOf mesh uvSt).cIndex

/-- The element arrays of the export of `mesh` (empty when the export dies
before computing them, i.e. when there is no UV layer). -/
def exportArraysOf (mesh : Mesh) (skin : Bool) : OutArrays :=
  match uvStateOf mesh with
  | .error _ => ⟨[], [], [], [], []⟩
  | .ok uvSt => arraysFor mesh skin uvSt

/-- Lines 112-228 `export_mesh`.  Returns the bytes present in the output
file when the call ends and, when a Python exception escapes, that
exception.  `open(filename, "wb")` at line 115 creates/truncates the file
before anything else runs, so the byte list is the file's final content in
both the success and the failure case. -/
def export_mesh (mesh : Mesh) (skin : Bool) : List FByte × Option ExpErr :=
  match uvStateOf mesh with
  | .error e => ([], some e)
  | .ok uvSt =>
    let pSt := permStateOf mesh uvSt
    writeSeq (exportOps skin (arraysFor mesh skin uvSt) pSt.cIndex
      (tri_inds mesh pSt.loopInds))

/-- The bytes of a pack that succeeded (used to state what a completed file
contains). -/
def okBytes (op : Except ExpErr (List FByte)) : List FByte :=
  match op with
  | .ok bs => bs
  | .error _ => []

/-- The complete container an export produces when every pack succeeds. -/
def containerBytes (mesh : Mesh) (skin : Bool) : List FByte :=
  match uvStateOf mesh with
  | .error _ => []
  | .ok uvSt =>
    let pSt := permStateOf mesh uvSt
    ((exportOps skin (arraysFor mesh skin uvSt) pSt.cIndex
      (tri_inds mesh pSt.loopInds)).map okBytes).flatten

/-! ## Concrete inputs used by witnesses and counterexamples -/

/-- A single smooth-shaded UV-mapped triangle; vertex 0 carries one bone
influence of weight 1/2, vertex 2 carries two influences. -/
def meshTri : Mesh :=
  { vertices :=
      [⟨⟨1, 2, 3⟩, ⟨1, 0, 0⟩, [⟨0, 1/2⟩]⟩,
       ⟨⟨0, 0, 0⟩, ⟨0, 1, 0⟩, []⟩,
       ⟨⟨0, 0, 1⟩, ⟨0, 0, 1⟩, [⟨1, 1/4⟩, ⟨2, 3/4⟩]⟩],
    loops := [⟨0⟩, ⟨1⟩, ⟨2⟩],
    polygons := [⟨[0, 1, 2], true, ⟨0, 0, 1⟩⟩],
    loop_triangles := [⟨(0, 1, 2)⟩],
    uv_layers := [[⟨0, 0⟩, ⟨1, 0⟩, ⟨0, 1⟩]] }

/-- The same triangle with no UV layer. -/
def meshNoUV : Mesh := { meshTri with uv_layers := [] }

/-- The same triangle with a bone-group index of 300 on vertex 0. -/
def meshBigJoint : Mesh :=
  { meshTri with vertices :=
      [⟨⟨1, 2, 3⟩, ⟨1, 0, 0⟩, [⟨300, 1/2⟩]⟩,
       ⟨⟨0, 0, 0⟩, ⟨0, 1, 0⟩, []⟩,
       ⟨⟨0, 0, 1⟩, ⟨0, 0, 1⟩, []⟩] }

/-- Two triangles over the same three vertices; the two corners of vertex 0
carry UVs (0, 0) and (1/1000, 0), exactly the clustering tolerance apart. -/
def meshEpsUV : Mesh :=
  { vertices :=
      [⟨⟨0, 0, 0⟩, ⟨1, 0, 0⟩, []⟩, ⟨⟨1, 0, 0⟩, ⟨1, 0, 0⟩, []⟩,
       ⟨⟨0, 1, 0⟩, ⟨1, 0, 0⟩, []⟩],
    loops := [⟨0⟩, ⟨1⟩, ⟨2⟩, ⟨0⟩, ⟨1⟩, ⟨2⟩],
    polygons := [⟨[0, 1, 2], true, ⟨0, 0, 1⟩⟩, ⟨[3, 4, 5], true, ⟨0, 0, 1⟩⟩],
    loop_triangles := [⟨(0, 1, 2)⟩, ⟨(3, 4, 5)⟩],
    uv_layers := [[⟨0, 0⟩, ⟨5, 5⟩, ⟨7, 7⟩, ⟨1/1000, 0⟩, ⟨5, 5⟩, ⟨7, 7⟩]] }

/-- A mesh whose only vertex is touched by no corner (a loose vertex), with
an empty UV layer present. -/
def meshIso : Mesh :=
  { vertices := [⟨⟨0, 0, 0⟩, ⟨1, 0, 0⟩, []⟩],
    loops := [], polygons := [], loop_triangles := [], uv_layers := [[]] }

/-! ## C1: skin weight normalization -/

/-- C1.  The spec claims each emitted weight is the selected weight divided
by the slot sum when that sum is positive.  The code computes `weight_sum`
and then runs `for weight in weights: weight = weight / weight_sum`, which
rebinds the loop-local name only — the emitted weights are the raw selected
weights.  On `meshTri`'s vertex 0 (one influence of weight 1/2, sum 1/2 > 0)
the emitted weights are [1/2, 0, 0, 0], not the [1, 0, 0, 0] the claim
requires, and their sum 1/2 is not within 1e-5 of 1. -/
theorem c1_weights_left_unnormalized :
    (exportArraysOf meshTri true).jointWeights.getD 0 none
        = some (normalizeWeights (selectJoints [⟨0, 1/2⟩]).weights) ∧
    normalizeWeights (selectJoints [⟨0, 1/2⟩]).weights = [1/2, 0, 0, 0] ∧
    spec_normalizeWeights (selectJoints [⟨0, 1/2⟩]).weights = [1, 0, 0, 0] ∧
    (0 : ℚ) < ([1/2, 0, 0, 0] : List ℚ).sum ∧
    normalizeWeights (selectJoints [⟨0, 1/2⟩]).weights
        ≠ spec_normalizeWeights (selectJoints [⟨0, 1/2⟩]).weights ∧
    ¬ |([1/2, 0, 0, 0] : List ℚ).sum - 1| ≤ 1/100000 := by
  refine ⟨?_, ?_, ?_, ?_, ?_, ?_⟩ <;>
  norm_num [exportArraysOf, arraysFor, uvStateOf, map_vertex_uvs,
    clusterCorners, clusterFold, clusterStep, insertCorner, uvCorners,
    map_vertex_normals, normalCorners, polygonCorners, permStateOf,
    find_vertex_permutations, permFold, permStep, findPermLast, permCorners,
    exportArrays, vertexStep, setPerm, setJoints, selectJoints, jointFold,
    jointStep, normalizeWeights, dsq2, dsq3, epsSq, mvdefault, v3zero, v2zero,
    remapVec, List.set, List.findIdx?, List.foldl, List.enum, List.enumFrom,
    spec_normalizeWeights, meshTri]
  rw [abs_of_pos (by norm_num : (0 : ℚ) < 1/2)]
  norm_num

/-! ## C2: coordinate remap of positions and normals -/

/-- C2, counterexample.  The claim says every emitted normal equals the
source normal re-expressed by (x, y, z) → (−x, z, y).  On `meshTri` the
source normal of vertex 0 is (1, 0, 0), whose remap is (−1, 0, 0), but the
emitted normal (line 179 stores the cluster representative unchanged) is
(1, 0, 0). -/
theorem c2_normal_not_remapped :
    (exportArraysOf meshTri false).normals.getD 0 none = some ⟨1, 0, 0⟩ ∧
    (meshTri.vertices.getD 0 mvdefault).normal = ⟨1, 0, 0⟩ ∧
    remapVec ⟨1, 0, 0⟩ = ⟨-1, 0, 0⟩ ∧
    (exportArraysOf meshTri false).normals.getD 0 none
        ≠ some (remapVec (meshTri.vertices.getD 0 mvdefault).normal) := by
  refine ⟨?_, ?_, ?_, ?_⟩ <;>
  norm_num [exportArraysOf, arraysFor, uvStateOf, map_vertex_uvs,
    clusterCorners, clusterFold, clusterStep, insertCorner, uvCorners,
    map_vertex_normals, normalCorners, polygonCorners, permStateOf,
    find_vertex_permutations, permFold, permStep, findPermLast, permCorners,
    exportArrays, vertexStep, setPerm, setJoints, selectJoints, jointFold,
    jointStep, normalizeWeights, dsq2, dsq3, epsSq, mvdefault, v3zero, v2zero,
    remapVec, List.set, List.findIdx?, List.foldl, List.enum, List.enumFrom, meshTri]

/-! ## C3: export with no UV channel -/

/-- C3.  The claim says a mesh with no UV channel exports successfully.  In
the code, `uv_layer` is `None` (line 122) and `map_vertex_uvs` dereferences
`uv_layer.data` (line 27), raising `AttributeError`: the export aborts with
no bytes written (the output file was already created empty by `open`). -/
theorem c3_missing_uv_layer_aborts (mesh : Mesh) (skin : Bool)
    (h : mesh.uv_layers = []) :
    export_mesh mesh skin = ([], some ExpErr.attributeError) := by
  simp [export_mesh, uvStateOf, map_vertex_uvs, h]

theorem c3_missing_uv_layer_aborts_witness :
    meshNoUV.uv_layers = [] ∧
    export_mesh meshNoUV true = ([], some ExpErr.attributeError) :=
  ⟨rfl, c3_missing_uv_layer_aborts meshNoUV true rfl⟩

/-! ## C4: bone-index resolution -/

/-- C4, counterexample.  The claim says emitted bone indices are resolved
against an attached skeleton by bone name, falling back to the raw group
index only when no skeleton is attached.  The code emits `group.group`
unconditionally (line 156): with a skeleton ["a", "b"] attached and group 0
named "b", the resolution the spec describes yields bone index 1, but the
export of `meshTri` emits raw index 0. -/
theorem c4_no_skeleton_resolution :
    (exportArraysOf meshTri true).jointIndices.getD 0 none = some [0, 0, 0, 0] ∧
    spec_resolveBoneIndex (some ["a", "b"]) ["b"] 0 = 1 ∧
    (exportArraysOf meshTri true).jointIndices.getD 0 none
        ≠ some [spec_resolveBoneIndex (some ["a", "b"]) ["b"] 0, 0, 0, 0] := by
  refine ⟨?_, ?_, ?_⟩ <;>
  norm_num [exportArraysOf, arraysFor, uvStateOf, map_vertex_uvs,
    clusterCorners, clusterFold, clusterStep, insertCorner, uvCorners,
    map_vertex_normals, normalCorners, polygonCorners, permStateOf,
    find_vertex_permutations, permFold, permStep, findPermLast, permCorners,
    exportArrays, vertexStep, setPerm, setJoints, selectJoints, jointFold,
    jointStep, normalizeWeights, dsq2, dsq3, epsSq, mvdefault, v3zero, v2zero,
    remapVec, List.set, List.findIdx?, List.foldl, List.enum, List.enumFrom,
    spec_resolveBoneIndex, meshTri]
  all_goals with_unfolding_all decide

/-! ## C5: cluster separation -/

/-- C5, counterexample.  The claim says representatives of two distinct
clusters of one vertex are separated by MORE than ε = 0.001.  The code
opens a new cluster whenever the distance is not strictly below ε
(line 33), so two corners exactly ε apart produce two clusters exactly ε
apart: on `meshEpsUV`, vertex 0 gets representatives (0, 0) and
(1/1000, 0), whose squared distance equals `epsSq`, not exceeding it. -/
theorem c5_separation_not_strict :
    (map_vertex_uvs meshEpsUV meshEpsUV.uv_layers.head?).toOption
      = some ⟨[[(⟨0, 0⟩, [0]), (⟨1/1000, 0⟩, [3])],
               [(⟨5, 5⟩, [1, 4])], [(⟨7, 7⟩, [2, 5])]],
              [0, 0, 0, 1, 0, 0]⟩ ∧
    dsq2 ⟨0, 0⟩ ⟨1/1000, 0⟩ = epsSq ∧
    ¬ epsSq < dsq2 ⟨0, 0⟩ ⟨1/1000, 0⟩ := by
  refine ⟨?_, by norm_num [dsq2, epsSq], by norm_num [dsq2, epsSq]⟩
  norm_num [map_vertex_uvs, meshEpsUV, clusterCorners, clusterFold,
    clusterStep, insertCorner, uvCorners, dsq2, epsSq, List.set,
    Except.toOption, List.enum, List.enumFrom]

/-! ## C7: permutation count bounds -/

/-- C7, counterexample.  The claim's lower bound of 1 permutation fails for
a vertex touched by no corner: on `meshIso` the loose vertex 0 has zero
permutations (and zero corners). -/
theorem c7_isolated_vertex_zero_perms :
    (uvStateOf meshIso).toOption = some ⟨[[]], []⟩ ∧
    ((permStateOf meshIso ⟨[[]], []⟩).perms.getD 0 []).length = 0 ∧
    meshIso.loops.countP (fun l => decide (l.vertex_index = 0)) = 0 ∧
    ¬ 1 ≤ ((permStateOf meshIso ⟨[[]], []⟩).perms.getD 0 []).length := by
  refine ⟨?_, ?_, ?_, ?_⟩ <;>
  norm_num [exportArraysOf, arraysFor, uvStateOf, map_vertex_uvs,
    clusterCorners, clusterFold, clusterStep, insertCorner, uvCorners,
    map_vertex_normals, normalCorners, polygonCorners, permStateOf,
    find_vertex_permutations, permFold, permStep, findPermLast, permCorners,
    exportArrays, vertexStep, setPerm, setJoints, selectJoints, jointFold,
    jointStep, normalizeWeights, dsq2, dsq3, epsSq, mvdefault, v3zero, v2zero,
    remapVec, List.set, List.findIdx?, List.foldl, List.enum, List.enumFrom,
    meshIso, Except.toOption, List.countP, List.countP.go]

/-! ## C9: atomicity of the written file -/

/-- C9, counterexample.  The claim says a failing export produces no output
bytes.  The file is opened at entry and written incrementally; exporting
`meshBigJoint` (bone-group index 300) fails in `struct.pack("<4B", ...)`
midway through the vertex buffer, after the header, the attribute table and
part of the vertex buffer have already been written. -/
theorem c9_partial_file_left :
    (export_mesh meshBigJoint true).2 = some ExpErr.structError ∧
    (export_mesh meshBigJoint true).1 ≠ [] := by
  constructor <;>
  norm_num [export_mesh, exportOps, exportArraysOf, arraysFor, uvStateOf, map_vertex_uvs,
    clusterCorners, clusterFold, clusterStep, insertCorner, uvCorners,
    map_vertex_normals, normalCorners, polygonCorners, permStateOf,
    find_vertex_permutations, permFold, permStep, findPermLast, permCorners,
    exportArrays, vertexStep, setPerm, setJoints, selectJoints, jointFold,
    jointStep, normalizeWeights, dsq2, dsq3, epsSq, mvdefault, v3zero, v2zero,
    remapVec, List.set, List.findIdx?, List.foldl, List.enum, List.enumFrom,
    meshBigJoint, meshTri, tri_inds, writeSeq, headerPack, packU8, packU32,
    pack2I, attribTableOps, vertexBufOps, packU32List, attrib_infos, sizeLoop,
    attribSizes, attribOffsets, vertexSizeOf, c_str, magicBytes,
    AttrData.packElem, AttrData.size, packFloats, packFloat, u32bytes,
    okBytes, List.cons_ne_nil]

/-! ## Write-sequence lemmas -/

/-- A write sequence ends without error exactly when every pack succeeded. -/
theorem writeSeq_snd_none_iff (l : List (Except ExpErr (List FByte))) :
    (writeSeq l).2 = none ↔ ∀ op ∈ l, ∃ bs, op = .ok bs := by
  induction l with
  | nil => simp [writeSeq]
  | cons op rest ih =>
    cases op with
    | error e => simp [writeSeq]
    | ok bs => simp [writeSeq, ih]

/-- A write sequence with no failure writes the concatenation of all the
packs' bytes. -/
theorem writeSeq_fst_of_none (l : List (Except ExpErr (List FByte)))
    (h : (writeSeq l).2 = none) :
    (writeSeq l).1 = (l.map okBytes).flatten := by
  induction l with
  | nil => simp [writeSeq]
  | cons op rest ih =>
    cases op with
    | error e => simp [writeSeq] at h
    | ok bs =>
      simp only [writeSeq] at h ⊢
      simp [okBytes, ih h]

/-- C9 amended.  When the export succeeds the file holds the complete
container; when the UV stage dies (no UV layer) the file was created but
holds no bytes.  (Together with `c9_partial_file_left`: a pack failure
mid-stream leaves the bytes written before it.) -/
theorem c9_success_writes_complete_container (mesh : Mesh) (skin : Bool) :
    ((export_mesh mesh skin).2 = none →
      (export_mesh mesh skin).1 = containerBytes mesh skin) ∧
    (mesh.uv_layers = [] → (export_mesh mesh skin).1 = []) := by
  constructor
  · intro h
    cases huv : uvStateOf mesh with
    | error e => simp [export_mesh, huv] at h
    | ok uvSt =>
      simp only [export_mesh, containerBytes, huv] at h ⊢
      exact writeSeq_fst_of_none _ h
  · intro h
    simp [export_mesh, uvStateOf, map_vertex_uvs, h]

theorem c9_success_writes_complete_container_witness :
    (export_mesh meshTri true).1 = containerBytes meshTri true ∧
    (export_mesh meshNoUV true).1 = [] :=
  ⟨(c9_success_writes_complete_container meshTri true).1 (by
      norm_num [export_mesh, exportOps, exportArraysOf, arraysFor, uvStateOf,
        map_vertex_uvs, meshTri, clusterCorners, clusterFold, clusterStep,
        insertCorner, uvCorners, map_vertex_normals, normalCorners,
        polygonCorners, permStateOf, find_vertex_permutations, permFold,
        permStep, findPermLast, permCorners, exportArrays, vertexStep, setPerm,
        setJoints, selectJoints, jointFold, jointStep, normalizeWeights, dsq2,
        dsq3, epsSq, mvdefault, v3zero, v2zero, remapVec, List.set,
        List.findIdx?, List.foldl, List.enum, List.enumFrom, tri_inds,
        writeSeq, headerPack, packU8, packU32, pack2I, attribTableOps,
        vertexBufOps, packU32List, attrib_infos, sizeLoop, attribSizes,
        attribOffsets, vertexSizeOf, c_str, magicBytes, AttrData.packElem,
        AttrData.size, packFloats, packFloat, u32bytes, okBytes]),
   (c9_success_writes_complete_container meshNoUV true).2 rfl⟩

/-! ## Header/buffer layout lemmas -/

/-- The output vertex count of an export (`num_vertices`); 0 when the UV
stage dies before it is computed. -/
def numVerticesOf (mesh : Mesh) : Nat :=
  match uvStateOf mesh with
  | .error _ => 0
  | .ok uvSt => (permStateOf mesh uvSt).cIndex

/-- The index list of an export (`tri_inds`); empty when the UV stage dies
before it is computed. -/
def triIndsOf (mesh : Mesh) : List Nat :=
  match uvStateOf mesh with
  | .error _ => []
  | .ok uvSt => tri_inds mesh (permStateOf mesh uvSt).loopInds

/-- The attribute table of an export. -/
def infosOf (mesh : Mesh) (skin : Bool) : List (String × AttrData) :=
  attrib_infos skin (exportArraysOf mesh skin)

/-- The vertex-buffer segment a fully successful export writes. -/
def vbufBytes (infos : List (String × AttrData)) (num : Nat) : List FByte :=
  ((vertexBufOps infos num).map okBytes).flatten

/-- The attribute-table segment a fully successful export writes. -/
def tableBytes (infos : List (String × AttrData)) : List FByte :=
  ((attribTableOps infos).map okBytes).flatten

/-- The accumulation loop of lines 192-198, run from an arbitrary start
state, appends the per-attribute sizes, the partial-sum offsets, and totals
the sizes. -/
theorem sizeLoop_go (infos : List (String × AttrData)) :
    ∀ (s o : List Nat) (v : Nat),
      infos.foldl
        (fun st p => (st.1 ++ [p.2.size], st.2.1 ++ [st.2.2], st.2.2 + p.2.size))
        (s, o, v)
      = (s ++ infos.map fun p => p.2.size,
         o ++ (List.range infos.length).map
            (fun k => v + (((infos.take k).map fun p => p.2.size).sum)),
         v + (infos.map fun p => p.2.size).sum) := by
  induction infos with
  | nil => intro s o v; simp
  | cons p rest ih =>
    intro s o v
    simp only [List.foldl_cons]
    rw [ih]
    refine congrArg₂ Prod.mk ?_ (congrArg₂ Prod.mk ?_ ?_)
    · simp
    · simp only [List.length_cons, List.range_succ_eq_map, List.map_cons,
        List.map_map, List.take_zero, List.map_nil, List.sum_nil,
        Nat.add_zero, List.append_assoc, List.singleton_append]
      refine congrArg _ (congrArg _ ?_)
      refine List.map_congr_left fun k _ => ?_
      simp [Function.comp, Nat.add_assoc]
    · simp [Nat.add_assoc]

/-- Closed form of `sizeLoop`: the sizes list, the prefix-sum offsets, and
the total size. -/
theorem sizeLoop_eq (infos : List (String × AttrData)) :
    sizeLoop infos
      = (infos.map fun p => p.2.size,
         (List.range infos.length).map
            (fun k => ((infos.take k).map fun p => p.2.size).sum),
         (infos.map fun p => p.2.size).sum) := by
  have := sizeLoop_go infos [] [] 0
  simpa [sizeLoop] using this

theorem packFloats_length (qs : List ℚ) :
    (packFloats qs).length = 4 * qs.length := by
  induction qs with
  | nil => simp [packFloats]
  | cons q rest ih =>
    simp only [packFloats, List.map_cons, List.flatten_cons,
      List.length_append, List.length_cons] at ih ⊢
    simp [packFloat, ih]
    omega

/-- A successful per-vertex per-attribute pack writes exactly the
attribute's declared size. -/
theorem packElem_ok_length (a : AttrData) (i : Nat) (bs : List FByte)
    (h : a.packElem i = .ok bs) : bs.length = a.size := by
  cases a with
  | vec3 xs =>
    simp only [AttrData.packElem] at h
    split at h
    · cases h
    · injection h with h
      subst h
      simp [AttrData.size, packFloats, packFloat]
  | vec2 xs =>
    simp only [AttrData.packElem] at h
    split at h
    · cases h
    · injection h with h
      subst h
      simp [AttrData.size, packFloats, packFloat]
  | floats4 xs =>
    simp only [AttrData.packElem] at h
    split at h
    · cases h
    · split at h
      · injection h with h
        subst h
        rename_i qs hq hlen
        rw [packFloats_length, hlen]
        rfl
      · cases h
  | bytes4 xs =>
    simp only [AttrData.packElem] at h
    split at h
    · cases h
    · split at h
      · injection h with h
        subst h
        rename_i ns hn hcond
        simp [AttrData.size, hcond.1]
      · cases h

theorem vertexSizeOf_eq_sum (infos : List (String × AttrData)) :
    vertexSizeOf infos = (infos.map fun p => p.2.size).sum := by
  rw [vertexSizeOf, sizeLoop_eq]

theorem attribSizes_eq_map (infos : List (String × AttrData)) :
    attribSizes infos = infos.map fun p => p.2.size := by
  rw [attribSizes, sizeLoop_eq]

/-- One interleaved vertex record of a successful export occupies exactly
`vertex_size` bytes. -/
theorem vertexRow_length (infos : List (String × AttrData)) (i : Nat)
    (h : ∀ p ∈ infos, ∃ bs, p.2.packElem i = Except.ok bs) :
    (((infos.map fun p => p.2.packElem i).map okBytes).flatten).length
      = (infos.map fun p => p.2.size).sum := by
  induction infos with
  | nil => simp
  | cons p rest ih =>
    obtain ⟨bs, hbs⟩ := h p (List.mem_cons_self _ _)
    simp only [List.map_cons, List.flatten_cons, List.length_append,
      List.sum_cons]
    rw [hbs]
    simp only [okBytes]
    rw [packElem_ok_length _ _ _ hbs,
      ih fun q hq => h q (List.mem_cons_of_mem _ hq)]

/-- A fully successful vertex buffer holds `vertexCount * vertexSize`
bytes. -/
theorem vbufBytes_length (infos : List (String × AttrData)) (num : Nat)
    (h : ∀ op ∈ vertexBufOps infos num, ∃ bs, op = .ok bs) :
    (vbufBytes infos num).length = num * vertexSizeOf infos := by
  induction num with
  | zero => simp [vbufBytes, vertexBufOps]
  | succ n ih =>
    have hsplit : vertexBufOps infos (n + 1)
        = vertexBufOps infos n ++ (infos.map fun p => p.2.packElem n) := by
      simp [vertexBufOps, List.range_succ]
    have h1 : ∀ op ∈ vertexBufOps infos n, ∃ bs, op = .ok bs := fun op hop =>
      h op (by rw [hsplit]; exact List.mem_append_left _ hop)
    rw [vbufBytes, hsplit, List.map_append, List.flatten_append,
      List.length_append, ← vbufBytes, ih h1,
      vertexRow_length infos n (fun p hp =>
        h _ (by
          rw [hsplit]
          exact List.mem_append_right _ (List.mem_map_of_mem _ hp))),
      ← vertexSizeOf_eq_sum]
    ring

theorem u32list_flatten_length (ns : List Nat) :
    ((ns.map u32bytes).flatten).length = 4 * ns.length := by
  induction ns with
  | nil => simp
  | cons m rest ih =>
    simp only [List.map_cons, List.flatten_cons, List.length_append,
      List.length_cons]
    rw [ih]
    simp [u32bytes]
    ring

/-- A successful index-buffer pack writes four bytes per index. -/
theorem packU32List_ok (ns : List Nat) (bs : List FByte)
    (h : packU32List ns = .ok bs) :
    bs = (ns.map u32bytes).flatten ∧ bs.length = 4 * ns.length := by
  rw [packU32List] at h
  split at h
  · injection h with h
    subst h
    exact ⟨rfl, u32list_flatten_length ns⟩
  · cases h

/-- A successful header pack writes the magic, the attribute count and the
three 32-bit counters, in order. -/
theorem headerPack_ok (a b c d : Nat) (bs : List FByte)
    (h : headerPack a b c d = .ok bs) :
    bs = magicBytes ++ [.byte a] ++ u32bytes b ++ u32bytes c ++ u32bytes d := by
  rw [headerPack] at h
  split at h
  · injection h with h
    exact h.symm
  · cases h

/-- C8.  For every successful export: the attribute names are emitted in the
fixed order (position, normal, texCoord, then jointWeights, jointIndices
when skinning is requested); `vertexSize` is the sum of the declared
attribute sizes; each declared offset is the sum of the sizes before it; the
file is the header (magic, attribute count, vertex size, vertex count,
index count) followed by the attribute table, a vertex buffer of exactly
`vertexCount * vertexSize` bytes, and an index buffer of exactly
`indexCount * 4` bytes. -/
theorem c8_header_buffer_consistency (mesh : Mesh) (skin : Bool)
    (h : (export_mesh mesh skin).2 = none) :
    (infosOf mesh skin).map Prod.fst
      = ["position", "normal", "texCoord"]
        ++ (if skin then ["jointWeights", "jointIndices"] else []) ∧
    vertexSizeOf (infosOf mesh skin) = (attribSizes (infosOf mesh skin)).sum ∧
    (∀ k, k < (infosOf mesh skin).length →
      (attribOffsets (infosOf mesh skin)).getD k 0
        = ((attribSizes (infosOf mesh skin)).take k).sum) ∧
    (export_mesh mesh skin).1
      = (magicBytes ++ [.byte (infosOf mesh skin).length]
          ++ u32bytes (vertexSizeOf (infosOf mesh skin))
          ++ u32bytes (numVerticesOf mesh)
          ++ u32bytes (triIndsOf mesh).length)
        ++ tableBytes (infosOf mesh skin)
        ++ vbufBytes (infosOf mesh skin) (numVerticesOf mesh)
        ++ okBytes (packU32List (triIndsOf mesh)) ∧
    (vbufBytes (infosOf mesh skin) (numVerticesOf mesh)).length
      = numVerticesOf mesh * vertexSizeOf (infosOf mesh skin) ∧
    (okBytes (packU32List (triIndsOf mesh))).length
      = 4 * (triIndsOf mesh).length := by
  cases huv : uvStateOf mesh with
  | error e => simp [export_mesh, huv] at h
  | ok uvSt =>
    have hinfos : infosOf mesh skin
        = attrib_infos skin (arraysFor mesh skin uvSt) := by
      simp [infosOf, exportArraysOf, huv]
    have hnum : numVerticesOf mesh = (permStateOf mesh uvSt).cIndex := by
      simp [numVerticesOf, huv]
    have hti : triIndsOf mesh
        = tri_inds mesh (permStateOf mesh uvSt).loopInds := by
      simp [triIndsOf, huv]
    have hexp : export_mesh mesh skin
        = writeSeq (exportOps skin (arraysFor mesh skin uvSt)
            (permStateOf mesh uvSt).cIndex
            (tri_inds mesh (permStateOf mesh uvSt).loopInds)) := by
      simp [export_mesh, huv]
    rw [hexp] at h
    have hops := (writeSeq_snd_none_iff _).1 h
    have hopsplit : exportOps skin (arraysFor mesh skin uvSt)
        (permStateOf mesh uvSt).cIndex
        (tri_inds mesh (permStateOf mesh uvSt).loopInds)
      = headerPack (attrib_infos skin (arraysFor mesh skin uvSt)).length
            (vertexSizeOf (attrib_infos skin (arraysFor mesh skin uvSt)))
            (permStateOf mesh uvSt).cIndex
            (tri_inds mesh (permStateOf mesh uvSt).loopInds).length
          :: (attribTableOps (attrib_infos skin (arraysFor mesh skin uvSt))
              ++ vertexBufOps (attrib_infos skin (arraysFor mesh skin uvSt))
                  (permStateOf mesh uvSt).cIndex
              ++ [packU32List (tri_inds mesh (permStateOf mesh uvSt).loopInds)]) := by
      simp [exportOps]
    refine ⟨?_, ?_, ?_, ?_, ?_, ?_⟩
    · rw [hinfos]
      cases skin <;> simp [attrib_infos]
    · rw [vertexSizeOf_eq_sum, attribSizes_eq_map]
    · intro k hk
      rw [hinfos] at hk ⊢
      rw [attribOffsets, sizeLoop_eq, attribSizes_eq_map, ← List.map_take]
      simp [List.getD, List.getElem?_map, List.getElem?_range, hk]
    · obtain ⟨hbs, hhbs⟩ := hops _ (by rw [hopsplit]; exact List.mem_cons_self _ _)
      rw [hexp, writeSeq_fst_of_none _ h, hopsplit]
      simp only [List.map_cons, List.map_append, List.flatten_cons,
        List.flatten_append, List.flatten, List.map_nil]
      rw [hinfos, hnum, hti, hhbs]
      simp only [okBytes]
      rw [headerPack_ok _ _ _ _ _ hhbs]
      simp [tableBytes, vbufBytes, List.append_assoc]
    · rw [hinfos, hnum]
      refine vbufBytes_length _ _ fun op hop => ?_
      exact hops op (by
        rw [hopsplit]
        exact List.mem_cons_of_mem _
          (List.mem_append_left _ (List.mem_append_right _ hop)))
    · obtain ⟨bs, hbs⟩ := hops (packU32List (tri_inds mesh (permStateOf mesh uvSt).loopInds))
        (by
          rw [hopsplit]
          exact List.mem_cons_of_mem _
            (List.mem_append_right _ (List.mem_singleton_self _)))
      rw [hti, hbs]
      simp only [okBytes]
      exact (packU32List_ok _ _ hbs).2

/-! ## Output-array shape lemmas -/

theorem foldl_setPerm_jointIndices (vu : List (List (Cluster Vec2)))
    (vn : List (List (Cluster Vec3))) (vi : Nat) (vert : MVertex)
    (ps : List (Nat × Nat × Nat)) (a : OutArrays) :
    (ps.foldl (setPerm vu vn vi vert) a).jointIndices = a.jointIndices := by
  induction ps generalizing a with
  | nil => rfl
  | cons p rest ih => rw [List.foldl_cons, ih]; rfl

theorem setJoints_jointIndices_length (a : OutArrays)
    (perms : List (Nat × Nat × Nat)) (ji : List Nat) (ws : List ℚ) :
    ((setJoints a perms ji ws).jointIndices).length = a.jointIndices.length := by
  unfold setJoints
  induction perms generalizing a with
  | nil => rfl
  | cons p rest ih =>
    rw [List.foldl_cons, ih]
    simp

theorem vertexStep_jointIndices_length (skin : Bool)
    (vu : List (List (Cluster Vec2))) (vn : List (List (Cluster Vec3)))
    (a : OutArrays) (item : Nat × MVertex × List (Nat × Nat × Nat)) :
    ((vertexStep skin vu vn a item).jointIndices).length
      = a.jointIndices.length := by
  unfold vertexStep
  rw [foldl_setPerm_jointIndices]
  cases skin with
  | false => rfl
  | true => simp [setJoints_jointIndices_length]

theorem exportArrays_jointIndices_length (mesh : Mesh) (skin : Bool)
    (vu : List (List (Cluster Vec2))) (vn : List (List (Cluster Vec3)))
    (perms : List (List (Nat × Nat × Nat))) (num : Nat) :
    ((exportArrays mesh skin vu vn perms num).jointIndices).length
      = if skin then num else 0 := by
  unfold exportArrays
  have go : ∀ (items : List (Nat × MVertex × List (Nat × Nat × Nat)))
      (a : OutArrays),
      ((items.foldl (vertexStep skin vu vn) a).jointIndices).length
        = a.jointIndices.length := by
    intro items
    induction items with
    | nil => intro a; rfl
    | cons it rest ih =>
      intro a
      rw [List.foldl_cons, ih, vertexStep_jointIndices_length]
  rw [go]
  cases skin <;> simp

/-! ## C10: joint indices are serialized as unsigned bytes -/

/-- C10.  Joint indices are packed with `"<4B"` (line 190): a skinned export
succeeds only if every emitted 4-slot index list consists of values below
256, and the concrete mesh `meshBigJoint` (group index 300) makes the pack
raise `struct.error`, aborting the export. -/
theorem c10_joint_indices_byte_range :
    (∀ mesh : Mesh, (export_mesh mesh true).2 = none →
      ∀ l, some l ∈ (exportArraysOf mesh true).jointIndices →
        l.length = 4 ∧ ∀ x ∈ l, x < 256) ∧
    (export_mesh meshBigJoint true).2 = some ExpErr.structError := by
  constructor
  · intro mesh h l hl
    cases huv : uvStateOf mesh with
    | error e => simp [export_mesh, huv] at h
    | ok uvSt =>
      have harr : exportArraysOf mesh true = arraysFor mesh true uvSt := by
        simp [exportArraysOf, huv]
      rw [harr] at hl
      obtain ⟨i, hilen, hget⟩ := List.mem_iff_getElem.1 hl
      have hexp : export_mesh mesh true
          = writeSeq (exportOps true (arraysFor mesh true uvSt)
              (permStateOf mesh uvSt).cIndex
              (tri_inds mesh (permStateOf mesh uvSt).loopInds)) := by
        simp [export_mesh, huv]
      rw [hexp] at h
      have hops := (writeSeq_snd_none_iff _).1 h
      have hnum : (arraysFor mesh true uvSt).jointIndices.length
          = (permStateOf mesh uvSt).cIndex := by
        rw [arraysFor, exportArrays_jointIndices_length]
        rfl
      have hmem : AttrData.packElem
          (.bytes4 (arraysFor mesh true uvSt).jointIndices) i
            ∈ exportOps true (arraysFor mesh true uvSt)
              (permStateOf mesh uvSt).cIndex
              (tri_inds mesh (permStateOf mesh uvSt).loopInds) := by
        simp only [exportOps]
        refine List.mem_cons_of_mem _ (List.mem_append_left _
          (List.mem_append_right _ ?_))
        simp only [vertexBufOps, List.mem_flatten]
        refine ⟨(attrib_infos true (arraysFor mesh true uvSt)).map
            fun p => p.2.packElem i, ?_, ?_⟩
        · exact List.mem_map_of_mem _ (List.mem_range.2 (hnum ▸ hilen))
        · refine List.mem_map.2 ⟨("jointIndices",
            .bytes4 (arraysFor mesh true uvSt).jointIndices), ?_, rfl⟩
          simp [attrib_infos]
      obtain ⟨bs, hbs⟩ := hops _ hmem
      have hd : (arraysFor mesh true uvSt).jointIndices.getD i none
          = some l := by
        simp [List.getD_eq_getElem?_getD, List.getElem?_eq_getElem hilen, hget]
      simp only [AttrData.packElem, hd] at hbs
      split at hbs
      · rename_i hcond
        exact hcond
      · cases hbs
  · norm_num [export_mesh, exportOps, exportArraysOf, arraysFor, uvStateOf,
      map_vertex_uvs, meshBigJoint, meshTri, clusterCorners, clusterFold,
      clusterStep, insertCorner, uvCorners, map_vertex_normals, normalCorners,
      polygonCorners, permStateOf, find_vertex_permutations, permFold,
      permStep, findPermLast, permCorners, exportArrays, vertexStep, setPerm,
      setJoints, selectJoints, jointFold, jointStep, normalizeWeights, dsq2,
      dsq3, epsSq, mvdefault, v3zero, v2zero, remapVec, List.set,
      List.findIdx?, List.foldl, List.enum, List.enumFrom, tri_inds, writeSeq,
      headerPack, packU8, packU32, pack2I, attribTableOps, vertexBufOps,
      packU32List, attrib_infos, sizeLoop, attribSizes, attribOffsets,
      vertexSizeOf, c_str, magicBytes, AttrData.packElem, AttrData.size,
      packFloats, packFloat, u32bytes, okBytes]

/-- The skinned export of the concrete triangle succeeds. -/
theorem meshTri_export_ok : (export_mesh meshTri true).2 = none := by
  norm_num [export_mesh, exportOps, exportArraysOf, arraysFor, uvStateOf,
    map_vertex_uvs, meshTri, clusterCorners, clusterFold, clusterStep,
    insertCorner, uvCorners, map_vertex_normals, normalCorners,
    polygonCorners, permStateOf, find_vertex_permutations, permFold, permStep,
    findPermLast, permCorners, exportArrays, vertexStep, setPerm, setJoints,
    selectJoints, jointFold, jointStep, normalizeWeights, dsq2, dsq3, epsSq,
    mvdefault, v3zero, v2zero, remapVec, List.set, List.findIdx?, List.foldl,
    List.enum, List.enumFrom, tri_inds, writeSeq, headerPack, packU8, packU32,
    pack2I, attribTableOps, vertexBufOps, packU32List, attrib_infos, sizeLoop,
    attribSizes, attribOffsets, vertexSizeOf, c_str, magicBytes,
    AttrData.packElem, AttrData.size, packFloats, packFloat, u32bytes,
    okBytes]

/-- The emitted joint-index lists of the concrete triangle. -/
theorem meshTri_jointIndices :
    (exportArraysOf meshTri true).jointIndices
      = [some [0, 0, 0, 0], some [0, 0, 0, 0], some [1, 2, 0, 0]] := by
  norm_num [exportArraysOf, arraysFor, uvStateOf, map_vertex_uvs, meshTri,
    clusterCorners, clusterFold, clusterStep, insertCorner, uvCorners,
    map_vertex_normals, normalCorners, polygonCorners, permStateOf,
    find_vertex_permutations, permFold, permStep, findPermLast, permCorners,
    exportArrays, vertexStep, setPerm, setJoints, selectJoints, jointFold,
    jointStep, normalizeWeights, dsq2, dsq3, epsSq, mvdefault, v3zero, v2zero,
    remapVec, List.set, List.findIdx?, List.foldl, List.enum, List.enumFrom]

theorem c8_header_buffer_consistency_witness :
    (infosOf meshTri true).map Prod.fst
      = ["position", "normal", "texCoord", "jointWeights", "jointIndices"] ∧
    (vbufBytes (infosOf meshTri true) (numVerticesOf meshTri)).length
      = numVerticesOf meshTri * vertexSizeOf (infosOf meshTri true) ∧
    (okBytes (packU32List (triIndsOf meshTri))).length
      = 4 * (triIndsOf meshTri).length := by
  have h := c8_header_buffer_consistency meshTri true meshTri_export_ok
  exact ⟨by simpa using h.1, h.2.2.2.2.1, h.2.2.2.2.2⟩

theorem c10_joint_indices_byte_range_witness :
    ([1, 2, 0, 0] : List Nat).length = 4 ∧ (2 : Nat) < 256 :=
  ⟨(c10_joint_indices_byte_range.1 meshTri meshTri_export_ok [1, 2, 0, 0]
      (by rw [meshTri_jointIndices]; simp)).1,
   (c10_joint_indices_byte_range.1 meshTri meshTri_export_ok [1, 2, 0, 0]
      (by rw [meshTri_jointIndices]; simp)).2 2 (by simp)⟩

/-! ## Provenance of emitted values (for C2 and C4) -/

theorem getD_mem_or_default {β : Type} (l : List β) (i : Nat) (d : β) :
    l.getD i d ∈ l ∨ l.getD i d = d := by
  by_cases h : i < l.length
  · left
    rw [List.getD_eq_getElem l d h]
    exact List.getElem_mem h
  · right
    exact List.getD_eq_default l d (Nat.le_of_not_lt h)

/-- Every cluster produced by `insertCorner` carries either the inserted
value or a representative already present. -/
theorem insertCorner_mem {α : Type} (dsq : α → α → ℚ) (v : α) (li : Nat)
    (cl : List (Cluster α)) (c' : Cluster α)
    (h : c' ∈ (insertCorner dsq v li cl).2) :
    c'.1 = v ∨ ∃ c ∈ cl, c'.1 = c.1 := by
  induction cl with
  | nil =>
    simp only [insertCorner, List.mem_singleton] at h
    subst h
    exact Or.inl rfl
  | cons hd rest ih =>
    obtain ⟨rep, inds⟩ := hd
    simp only [insertCorner] at h
    split at h
    · rcases List.mem_cons.1 h with h1 | h1
      · exact Or.inr ⟨(rep, inds), List.mem_cons_self _ _, by rw [h1]⟩
      · exact Or.inr ⟨c', List.mem_cons_of_mem _ h1, rfl⟩
    · rcases List.mem_cons.1 h with h1 | h1
      · exact Or.inr ⟨(rep, inds), List.mem_cons_self _ _, by rw [h1]⟩
      · rcases ih h1 with h2 | ⟨c, hc, hc'⟩
        · exact Or.inl h2
        · exact Or.inr ⟨c, List.mem_cons_of_mem _ hc, hc'⟩

/-- Representatives in the final cluster tables satisfy any property that
holds of the initial representatives and of every corner value. -/
theorem clusterFold_reps_invariant {α : Type} (dsq : α → α → ℚ) (P : α → Prop) :
    ∀ (corners : List (Nat × Nat × α)) (st : ClusterState α),
      (∀ cl ∈ st.clusters, ∀ c ∈ cl, P c.1) →
      (∀ c ∈ corners, P c.2.2) →
      ∀ cl ∈ (clusterFold dsq st corners).clusters, ∀ c ∈ cl, P c.1 := by
  intro corners
  induction corners with
  | nil => intro st h _; exact h
  | cons c rest ih =>
    intro st hst hc
    refine ih (clusterStep dsq st c) ?_ fun c' hc' => hc c' (List.mem_cons_of_mem _ hc')
    intro cl hcl c' hc'
    rcases List.mem_or_eq_of_mem_set hcl with h1 | h1
    · exact hst cl h1 c' hc'
    · subst h1
      rcases insertCorner_mem dsq c.2.2 c.1 _ c' hc' with h2 | ⟨c0, hc0, hc0'⟩
      · rw [h2]; exact hc c (List.mem_cons_self _ _)
      · rw [hc0']
        rcases getD_mem_or_default st.clusters c.2.1 [] with h3 | h3
        · exact hst _ h3 c0 hc0
        · rw [h3] at hc0; cases hc0

/-- What a corner of the normal stream can carry: a polygon face normal, a
vertex normal, or the placeholder for an out-of-range host index. -/
theorem normalCorners_value (mesh : Mesh) (c : Nat × Nat × Vec3)
    (h : c ∈ normalCorners mesh) :
    (∃ poly ∈ mesh.polygons, c.2.2 = poly.normal) ∨
    (∃ vert ∈ mesh.vertices, c.2.2 = vert.normal) ∨ c.2.2 = v3zero := by
  simp only [normalCorners, List.mem_flatten, List.mem_map] at h
  obtain ⟨sub, ⟨poly, hpoly, hsub⟩, hc⟩ := h
  subst hsub
  simp only [polygonCorners, List.mem_map] at hc
  obtain ⟨i, _, hc⟩ := hc
  subst hc
  by_cases hs : poly.use_smooth
  · rcases getD_mem_or_default mesh.vertices
        ((mesh.loops.getD i ⟨0⟩).vertex_index) mvdefault with h2 | h2
    · exact Or.inr (Or.inl ⟨_, h2, by simp [hs]⟩)
    · refine Or.inr (Or.inr ?_)
      simp only [hs, ite_true]
      rw [h2]
      rfl
  · exact Or.inl ⟨poly, hpoly, by simp [hs]⟩

/-- The normal written for any (vertex, cluster) pair satisfies any property
holding of all normal-cluster representatives and of the placeholder. -/
theorem clusterValue_prop (Q : Vec3 → Prop) (vn : List (List (Cluster Vec3)))
    (hreps : ∀ cl ∈ vn, ∀ c ∈ cl, Q c.1) (hzero : Q v3zero) (vi k : Nat) :
    Q (((vn.getD vi []).getD k (v3zero, [])).1) := by
  rcases getD_mem_or_default (vn.getD vi []) k (v3zero, []) with h1 | h1
  · rcases getD_mem_or_default vn vi [] with h2 | h2
    · exact hreps _ h2 _ h1
    · rw [h2] at h1; cases h1
  · rw [h1]; exact hzero

theorem setJoints_positions (a : OutArrays) (perms : List (Nat × Nat × Nat))
    (ji : List Nat) (ws : List ℚ) :
    (setJoints a perms ji ws).positions = a.positions := by
  unfold setJoints
  induction perms generalizing a with
  | nil => rfl
  | cons p rest ih => rw [List.foldl_cons, ih]

theorem setJoints_normals (a : OutArrays) (perms : List (Nat × Nat × Nat))
    (ji : List Nat) (ws : List ℚ) :
    (setJoints a perms ji ws).normals = a.normals := by
  unfold setJoints
  induction perms generalizing a with
  | nil => rfl
  | cons p rest ih => rw [List.foldl_cons, ih]

theorem setJoints_jointIndices_mem (a : OutArrays)
    (perms : List (Nat × Nat × Nat)) (ji : List Nat) (ws : List ℚ)
    (p : Option (List Nat)) (h : p ∈ (setJoints a perms ji ws).jointIndices) :
    p ∈ a.jointIndices ∨ p = some ji := by
  unfold setJoints at h
  induction perms generalizing a with
  | nil => exact Or.inl h
  | cons q rest ih =>
    rw [List.foldl_cons] at h
    rcases ih _ h with h1 | h1
    · rcases List.mem_or_eq_of_mem_set h1 with h2 | h2
      · exact Or.inl h2
      · exact Or.inr h2
    · exact Or.inr h1

theorem foldl_setPerm_positions_mem (vu : List (List (Cluster Vec2)))
    (vn : List (List (Cluster Vec3))) (vi : Nat) (vert : MVertex)
    (ps : List (Nat × Nat × Nat)) (a : OutArrays) (p : Option Vec3)
    (h : p ∈ (ps.foldl (setPerm vu vn vi vert) a).positions) :
    p ∈ a.positions ∨ p = some (remapVec vert.co) := by
  induction ps generalizing a with
  | nil => exact Or.inl h
  | cons q rest ih =>
    rw [List.foldl_cons] at h
    rcases ih _ h with h1 | h1
    · rcases List.mem_or_eq_of_mem_set h1 with h2 | h2
      · exact Or.inl h2
      · exact Or.inr h2
    · exact Or.inr h1

theorem foldl_setPerm_normals_mem (vu : List (List (Cluster Vec2)))
    (vn : List (List (Cluster Vec3))) (vi : Nat) (vert : MVertex)
    (ps : List (Nat × Nat × Nat)) (a : OutArrays) (p : Option Vec3)
    (h : p ∈ (ps.foldl (setPerm vu vn vi vert) a).normals) :
    p ∈ a.normals ∨ ∃ k, p = some (((vn.getD vi []).getD k (v3zero, [])).1) := by
  induction ps generalizing a with
  | nil => exact Or.inl h
  | cons q rest ih =>
    rw [List.foldl_cons] at h
    rcases ih _ h with h1 | h1
    · rcases List.mem_or_eq_of_mem_set h1 with h2 | h2
      · exact Or.inl h2
      · exact Or.inr ⟨q.2.2, h2⟩
    · exact h1.elim fun k hk => Or.inr ⟨k, hk⟩

/-- Soundness of the element-array fold: positions, normals and joint-index
lists in the result satisfy any properties holding of the written values and
of the initial arrays. -/
theorem foldl_vertexStep_sound (skin : Bool) (vu : List (List (Cluster Vec2)))
    (vn : List (List (Cluster Vec3))) (Rv Qn : Vec3 → Prop)
    (J : List Nat → Prop)
    (hvn : ∀ vi k, Qn (((vn.getD vi []).getD k (v3zero, [])).1)) :
    ∀ (items : List (Nat × MVertex × List (Nat × Nat × Nat))) (a : OutArrays),
      (∀ it ∈ items, Rv (remapVec it.2.1.co)) →
      (∀ it ∈ items, J (selectJoints it.2.1.groups).jointInds) →
      (∀ p ∈ a.positions, ∀ v, p = some v → Rv v) →
      (∀ p ∈ a.normals, ∀ n, p = some n → Qn n) →
      (∀ p ∈ a.jointIndices, ∀ l, p = some l → J l) →
      (∀ p ∈ (items.foldl (vertexStep skin vu vn) a).positions,
          ∀ v, p = some v → Rv v) ∧
      (∀ p ∈ (items.foldl (vertexStep skin vu vn) a).normals,
          ∀ n, p = some n → Qn n) ∧
      (∀ p ∈ (items.foldl (vertexStep skin vu vn) a).jointIndices,
          ∀ l, p = some l → J l) := by
  intro items
  induction items with
  | nil => intro a _ _ h1 h2 h3; exact ⟨h1, h2, h3⟩
  | cons it rest ih =>
    intro a hR hJ h1 h2 h3
    rw [List.foldl_cons]
    have hstep1 : ∀ p ∈ (vertexStep skin vu vn a it).positions,
        ∀ v, p = some v → Rv v := by
      intro p hp v hv
      unfold vertexStep at hp
      rcases foldl_setPerm_positions_mem _ _ _ _ _ _ _ hp with hm | hm
      · cases skin with
        | false => exact h1 p hm v hv
        | true =>
          have hm' : p ∈ (setJoints a it.2.2
              (selectJoints it.2.1.groups).jointInds
              (normalizeWeights (selectJoints it.2.1.groups).weights)).positions := hm
          rw [setJoints_positions] at hm'
          exact h1 p hm' v hv
      · rw [hv] at hm
        injection hm with hm
        rw [hm]
        exact hR it (List.mem_cons_self _ _)
    have hstep2 : ∀ p ∈ (vertexStep skin vu vn a it).normals,
        ∀ n, p = some n → Qn n := by
      intro p hp n hn
      unfold vertexStep at hp
      rcases foldl_setPerm_normals_mem _ _ _ _ _ _ _ hp with hm | ⟨k, hk⟩
      · cases skin with
        | false => exact h2 p hm n hn
        | true =>
          have hm' : p ∈ (setJoints a it.2.2
              (selectJoints it.2.1.groups).jointInds
              (normalizeWeights (selectJoints it.2.1.groups).weights)).normals := hm
          rw [setJoints_normals] at hm'
          exact h2 p hm' n hn
      · rw [hn] at hk
        injection hk with hk
        rw [hk]
        exact hvn it.1 k
    have hstep3 : ∀ p ∈ (vertexStep skin vu vn a it).jointIndices,
        ∀ l, p = some l → J l := by
      intro p hp l hl
      unfold vertexStep at hp
      rw [foldl_setPerm_jointIndices] at hp
      cases skin with
      | false => exact h3 p hp l hl
      | true =>
        have hp' : p ∈ (setJoints a it.2.2
            (selectJoints it.2.1.groups).jointInds
            (normalizeWeights (selectJoints it.2.1.groups).weights)).jointIndices := hp
        rcases setJoints_jointIndices_mem _ _ _ _ _ hp' with hm | hm
        · exact h3 p hm l hl
        · rw [hl] at hm
          injection hm with hm
          rw [hm]
          exact hJ it (List.mem_cons_self _ _)
    exact ih _ (fun x hx => hR x (List.mem_cons_of_mem _ hx))
      (fun x hx => hJ x (List.mem_cons_of_mem _ hx)) hstep1 hstep2 hstep3

/-- The source-vertex component of every item fed to the element-array fold
is a vertex of the mesh. -/
theorem exportArrays_item_vertex (mesh : Mesh)
    (vperms : List (List (Nat × Nat × Nat)))
    (it : Nat × MVertex × List (Nat × Nat × Nat))
    (h : it ∈ (mesh.vertices.zip vperms).enum.map fun q => (q.1, q.2.1, q.2.2)) :
    it.2.1 ∈ mesh.vertices := by
  obtain ⟨q, hq, hit⟩ := List.mem_map.1 h
  have h2 : q.2 ∈ mesh.vertices.zip vperms := by
    have := List.mem_enum_iff_getElem?.1 hq
    exact List.getElem?_mem this
  subst hit
  exact (List.of_mem_zip (by simpa using h2)).1

/-- C2 amended.  Every emitted position is the axis remap (x, y, z) →
(−x, z, y) of a source vertex position, applied exactly once, and the
inverse remap recovers the source position; every emitted normal is an
unremapped source-space value (a polygon face normal or a vertex normal,
with the zero placeholder for host indices out of range); and the inverse
remap undoes the remap on any vector. -/
theorem c2_positions_remapped_normals_not (mesh : Mesh) (skin : Bool) :
    (∀ p ∈ (exportArraysOf mesh skin).positions, ∀ v, p = some v →
      ∃ vert ∈ mesh.vertices, v = remapVec vert.co ∧ remapVecInv v = vert.co) ∧
    (∀ p ∈ (exportArraysOf mesh skin).normals, ∀ n, p = some n →
      (∃ poly ∈ mesh.polygons, n = poly.normal) ∨
      (∃ vert ∈ mesh.vertices, n = vert.normal) ∨ n = v3zero) ∧
    (∀ v : Vec3, remapVecInv (remapVec v) = v) := by
  have hinv : ∀ v : Vec3, remapVecInv (remapVec v) = v := by
    intro v
    simp [remapVec, remapVecInv]
  cases huv : uvStateOf mesh with
  | error e =>
    have he : exportArraysOf mesh skin = ⟨[], [], [], [], []⟩ := by
      simp [exportArraysOf, huv]
    rw [he]
    refine ⟨?_, ?_, hinv⟩ <;> (intro p hp; cases hp)
  | ok uvSt =>
    have he : exportArraysOf mesh skin = arraysFor mesh skin uvSt := by
      simp [exportArraysOf, huv]
    rw [he, arraysFor, exportArrays]
    have hreps : ∀ cl ∈ (map_vertex_normals mesh).clusters, ∀ c ∈ cl,
        (∃ poly ∈ mesh.polygons, c.1 = poly.normal) ∨
        (∃ vert ∈ mesh.vertices, c.1 = vert.normal) ∨ c.1 = v3zero := by
      rw [map_vertex_normals, clusterCorners]
      refine clusterFold_reps_invariant dsq3
        (fun n => (∃ poly ∈ mesh.polygons, n = poly.normal) ∨
          (∃ vert ∈ mesh.vertices, n = vert.normal) ∨ n = v3zero)
        (normalCorners mesh) _ ?_ ?_
      · intro cl hcl c hc
        rw [List.eq_of_mem_replicate hcl] at hc
        cases hc
      · exact fun c hc => normalCorners_value mesh c hc
    have hsound := foldl_vertexStep_sound skin uvSt.clusters
      (map_vertex_normals mesh).clusters
      (fun v => ∃ vert ∈ mesh.vertices, v = remapVec vert.co)
      (fun n => (∃ poly ∈ mesh.polygons, n = poly.normal) ∨
        (∃ vert ∈ mesh.vertices, n = vert.normal) ∨ n = v3zero)
      (fun _ => True)
      (clusterValue_prop
        (fun n => (∃ poly ∈ mesh.polygons, n = poly.normal) ∨
          (∃ vert ∈ mesh.vertices, n = vert.normal) ∨ n = v3zero)
        (map_vertex_normals mesh).clusters hreps (Or.inr (Or.inr rfl)))
      ((mesh.vertices.zip (permStateOf mesh uvSt).perms).enum.map
        fun q => (q.1, q.2.1, q.2.2))
      (fun it hit => ⟨it.2.1, exportArrays_item_vertex mesh _ it hit, rfl⟩)
      (fun _ _ => trivial)
      (a := ⟨List.replicate (permStateOf mesh uvSt).cIndex none,
        List.replicate (permStateOf mesh uvSt).cIndex none,
        List.replicate (permStateOf mesh uvSt).cIndex none,
        if skin then List.replicate (permStateOf mesh uvSt).cIndex none else [],
        if skin then List.replicate (permStateOf mesh uvSt).cIndex none else []⟩)
      (by intro p hp v hv; rw [List.eq_of_mem_replicate hp] at hv; cases hv)
      (by intro p hp n hn; rw [List.eq_of_mem_replicate hp] at hn; cases hn)
      (by
        intro p hp l hl
        cases skin with
        | false => cases hp
        | true =>
          have hp' : p ∈ List.replicate (permStateOf mesh uvSt).cIndex
              (none : Option (List Nat)) := hp
          rw [List.eq_of_mem_replicate hp'] at hl
          cases hl)
    refine ⟨?_, ?_, hinv⟩
    · intro p hp v hv
      obtain ⟨vert, hvert, hveq⟩ := hsound.1 p hp v hv
      exact ⟨vert, hvert, hveq, by rw [hveq, hinv]⟩
    · exact hsound.2.1

/-- The emitted positions of the concrete triangle. -/
theorem meshTri_positions :
    (exportArraysOf meshTri false).positions
      = [some ⟨-1, 3, 2⟩, some ⟨0, 0, 0⟩, some ⟨0, 1, 0⟩] := by
  norm_num [exportArraysOf, arraysFor, uvStateOf, map_vertex_uvs, meshTri,
    clusterCorners, clusterFold, clusterStep, insertCorner, uvCorners,
    map_vertex_normals, normalCorners, polygonCorners, permStateOf,
    find_vertex_permutations, permFold, permStep, findPermLast, permCorners,
    exportArrays, vertexStep, setPerm, setJoints, selectJoints, jointFold,
    jointStep, normalizeWeights, dsq2, dsq3, epsSq, mvdefault, v3zero, v2zero,
    remapVec, List.set, List.findIdx?, List.foldl, List.enum, List.enumFrom]

theorem c2_positions_remapped_normals_not_witness :
    (∃ vert ∈ meshTri.vertices, (⟨-1, 3, 2⟩ : Vec3) = remapVec vert.co ∧
      remapVecInv ⟨-1, 3, 2⟩ = vert.co) ∧
    remapVecInv (remapVec ⟨5, 6, 7⟩) = ⟨5, 6, 7⟩ :=
  ⟨(c2_positions_remapped_normals_not meshTri false).1 (some ⟨-1, 3, 2⟩)
      (by rw [meshTri_positions]; simp) ⟨-1, 3, 2⟩ rfl,
   (c2_positions_remapped_normals_not meshTri false).2.2 ⟨5, 6, 7⟩⟩

/-! ## C4 amended: emitted bone indices are raw group indices -/

theorem jointFold_inds_invariant (P : Nat → Prop) :
    ∀ (groups : List VertexGroupEntry) (st : JointState),
      (∀ x ∈ st.jointInds, P x) → (∀ g ∈ groups, P g.group) →
      ∀ x ∈ (jointFold st groups).jointInds, P x := by
  intro groups
  induction groups with
  | nil => intro st h _; exact h
  | cons g rest ih =>
    intro st hst hg
    refine ih _ ?_ fun g' hg' => hg g' (List.mem_cons_of_mem _ hg')
    intro x hx
    unfold jointStep at hx
    split at hx
    · rcases List.mem_or_eq_of_mem_set hx with h1 | h1
      · exact hst x h1
      · rw [h1]; exact hg g (List.mem_cons_self _ _)
    · split at hx
      · rcases List.mem_or_eq_of_mem_set hx with h1 | h1
        · exact hst x h1
        · rw [h1]; exact hg g (List.mem_cons_self _ _)
      · exact hst x hx

/-- Every index selected into the 4 slots is the raw `group.group` of one
of the vertex's influences, or the initial slot value 0. -/
theorem selectJoints_raw (groups : List VertexGroupEntry) :
    ∀ x ∈ (selectJoints groups).jointInds,
      x = 0 ∨ ∃ g ∈ groups, x = g.group := by
  refine jointFold_inds_invariant _ groups _ ?_ ?_
  · intro x hx
    left
    simp at hx
    exact hx
  · exact fun g hg => Or.inr ⟨g, hg, rfl⟩

/-- C4 amended.  Every emitted 4-slot bone-index list consists of raw
vertex-group indices of the generating vertex's influences (or the initial
slot value 0); no skeleton enters the computation. -/
theorem c4_raw_group_indices (mesh : Mesh) (skin : Bool) :
    ∀ p ∈ (exportArraysOf mesh skin).jointIndices, ∀ l, p = some l →
      ∀ x ∈ l, x = 0 ∨ ∃ vert ∈ mesh.vertices, ∃ g ∈ vert.groups, x = g.group := by
  cases huv : uvStateOf mesh with
  | error e =>
    have he : exportArraysOf mesh skin = ⟨[], [], [], [], []⟩ := by
      simp [exportArraysOf, huv]
    rw [he]
    intro p hp
    cases hp
  | ok uvSt =>
    have he : exportArraysOf mesh skin = arraysFor mesh skin uvSt := by
      simp [exportArraysOf, huv]
    rw [he, arraysFor, exportArrays]
    have hsound := foldl_vertexStep_sound skin uvSt.clusters
      (map_vertex_normals mesh).clusters
      (fun _ => True) (fun _ => True)
      (fun l => ∀ x ∈ l, x = 0 ∨
        ∃ vert ∈ mesh.vertices, ∃ g ∈ vert.groups, x = g.group)
      (fun _ _ => trivial)
      ((mesh.vertices.zip (permStateOf mesh uvSt).perms).enum.map
        fun q => (q.1, q.2.1, q.2.2))
      (fun _ _ => trivial)
      (fun it hit => by
        intro x hx
        rcases selectJoints_raw it.2.1.groups x hx with h | ⟨g, hg, hxg⟩
        · exact Or.inl h
        · exact Or.inr ⟨it.2.1, exportArrays_item_vertex mesh _ it hit, g, hg, hxg⟩)
      (a := ⟨List.replicate (permStateOf mesh uvSt).cIndex none,
        List.replicate (permStateOf mesh uvSt).cIndex none,
        List.replicate (permStateOf mesh uvSt).cIndex none,
        if skin then List.replicate (permStateOf mesh uvSt).cIndex none else [],
        if skin then List.replicate (permStateOf mesh uvSt).cIndex none else []⟩)
      (fun _ _ _ _ => trivial)
      (fun _ _ _ _ => trivial)
      (by
        intro p hp l hl
        cases skin with
        | false => cases hp
        | true =>
          have hp' : p ∈ List.replicate (permStateOf mesh uvSt).cIndex
              (none : Option (List Nat)) := hp
          rw [List.eq_of_mem_replicate hp'] at hl
          cases hl)
    exact hsound.2.2

theorem c4_raw_group_indices_witness :
    (1 : Nat) = 0 ∨
      ∃ vert ∈ meshTri.vertices, ∃ g ∈ vert.groups, (1 : Nat) = g.group :=
  c4_raw_group_indices meshTri true (some [1, 2, 0, 0])
    (by rw [meshTri_jointIndices]; simp) [1, 2, 0, 0] rfl 1 (by simp)

/-! ## C5: cluster separation and first-match assignment -/

/-- Pairwise separation: any two distinct clusters of one vertex have
representatives at squared distance at least `epsSq`. -/
def SepClusters {α : Type} (dsq : α → α → ℚ) (st : ClusterState α) : Prop :=
  ∀ cl ∈ st.clusters, (cl.map Prod.fst).Pairwise fun a b => epsSq ≤ dsq a b

/-- First-match-wins assignment for one corner: its recorded cluster index
points into its vertex's cluster list, the representative there matches the
corner's value within tolerance (or is that very value, when the corner
founded the cluster), and no earlier cluster matches. -/
def FirstMatch {α : Type} (dsq : α → α → ℚ) (st : ClusterState α)
    (c : Nat × Nat × α) : Prop :=
  st.loopInds.getD c.1 0 < ((st.clusters.getD c.2.1 []).map Prod.fst).length ∧
  (dsq c.2.2 (((st.clusters.getD c.2.1 []).map Prod.fst).getD
      (st.loopInds.getD c.1 0) c.2.2) < epsSq ∨
    ((st.clusters.getD c.2.1 []).map Prod.fst).getD
      (st.loopInds.getD c.1 0) c.2.2 = c.2.2) ∧
  ∀ j < st.loopInds.getD c.1 0,
    epsSq ≤ dsq c.2.2 (((st.clusters.getD c.2.1 []).map Prod.fst).getD j c.2.2)

theorem getD_set_self_of_lt {β : Type} (l : List β) (i : Nat) (x d : β)
    (h : i < l.length) : (l.set i x).getD i d = x := by
  simp [List.getD_eq_getElem?_getD, List.getElem?_set_self h]

theorem getD_set_ne {β : Type} (l : List β) (i j : Nat) (x d : β)
    (h : i ≠ j) : (l.set i x).getD j d = l.getD j d := by
  simp [List.getD_eq_getElem?_getD, List.getElem?_set_ne h]

theorem getD_append_left {β : Type} (l l' : List β) (i : Nat) (d : β)
    (h : i < l.length) : (l ++ l').getD i d = l.getD i d := by
  simp [List.getD_eq_getElem?_getD, List.getElem?_append_left h]

/-- Specification of the scan of lines 30-40 / 61-73: either the value
matches an existing cluster — the returned index is the FIRST match, the
representatives are unchanged — or no cluster matches and a new cluster
with the value as representative is appended at the end. -/
theorem insertCorner_spec {α : Type} (dsq : α → α → ℚ) (v : α) (li : Nat)
    (cl : List (Cluster α)) :
    ((insertCorner dsq v li cl).2.map Prod.fst = cl.map Prod.fst ∧
      (insertCorner dsq v li cl).1 < cl.length ∧
      dsq v ((cl.map Prod.fst).getD (insertCorner dsq v li cl).1 v) < epsSq ∧
      ∀ j < (insertCorner dsq v li cl).1,
        epsSq ≤ dsq v ((cl.map Prod.fst).getD j v)) ∨
    ((insertCorner dsq v li cl).2.map Prod.fst = cl.map Prod.fst ++ [v] ∧
      (insertCorner dsq v li cl).1 = cl.length ∧
      ∀ j < cl.length, epsSq ≤ dsq v ((cl.map Prod.fst).getD j v)) := by
  induction cl with
  | nil =>
    right
    simp [insertCorner]
  | cons hd rest ih =>
    obtain ⟨rep, inds⟩ := hd
    by_cases hrep : dsq v rep < epsSq
    · left
      simp [insertCorner, hrep]
    · have hge : epsSq ≤ dsq v rep := le_of_not_lt hrep
      rcases ih with ⟨h1, h2, h3, h4⟩ | ⟨h1, h2, h3⟩
      · left
        refine ⟨by simp [insertCorner, hrep, h1], ?_, ?_, ?_⟩
        · simp only [insertCorner, hrep, if_false, List.length_cons]
          omega
        · simp only [insertCorner, hrep, if_false, List.map_cons]
          simpa using h3
        · intro j hj
          simp only [insertCorner, hrep, if_false] at hj
          match j with
          | 0 => simpa using hge
          | j' + 1 =>
            simp only [List.map_cons]
            have := h4 j' (by omega)
            simpa using this
      · right
        refine ⟨by simp [insertCorner, hrep, h1], ?_, ?_⟩
        · simp only [insertCorner, hrep, if_false, List.length_cons]
          omega
        · intro j hj
          match j with
          | 0 => simpa using hge
          | j' + 1 =>
            simp only [List.map_cons]
            have := h3 j' (by simpa using hj)
            simpa using this

theorem clusterFold_loopInds_length {α : Type} (dsq : α → α → ℚ) :
    ∀ (corners : List (Nat × Nat × α)) (st : ClusterState α),
      (clusterFold dsq st corners).loopInds.length = st.loopInds.length := by
  intro corners
  induction corners with
  | nil => intro st; rfl
  | cons c rest ih =>
    intro st
    rw [clusterFold, ih]
    simp [clusterStep]

theorem clusterFold_clusters_length {α : Type} (dsq : α → α → ℚ) :
    ∀ (corners : List (Nat × Nat × α)) (st : ClusterState α),
      (clusterFold dsq st corners).clusters.length = st.clusters.length := by
  intro corners
  induction corners with
  | nil => intro st; rfl
  | cons c rest ih =>
    intro st
    rw [clusterFold, ih]
    simp [clusterStep]

/-- Cluster separation is an invariant of the clustering pass. -/
theorem clusterFold_sep {α : Type} (dsq : α → α → ℚ)
    (hsym : ∀ a b, dsq a b = dsq b a) :
    ∀ (corners : List (Nat × Nat × α)) (st : ClusterState α),
      SepClusters dsq st → SepClusters dsq (clusterFold dsq st corners) := by
  intro corners
  induction corners with
  | nil => exact fun st h => h
  | cons c rest ih =>
    intro st hst
    refine ih _ ?_
    intro cl hcl
    rcases List.mem_or_eq_of_mem_set hcl with h1 | h1
    · exact hst cl h1
    · subst h1
      have hold : ((st.clusters.getD c.2.1 []).map Prod.fst).Pairwise
          fun a b => epsSq ≤ dsq a b := by
        rcases getD_mem_or_default st.clusters c.2.1 [] with h2 | h2
        · exact hst _ h2
        · rw [h2]; simp
      rcases insertCorner_spec dsq c.2.2 c.1 (st.clusters.getD c.2.1 [])
        with ⟨h1, _, _, _⟩ | ⟨h1, _, h3⟩
      · rw [h1]; exact hold
      · rw [h1, List.pairwise_append]
        refine ⟨hold, by simp, ?_⟩
        intro a ha b hb
        rw [List.mem_singleton] at hb
        subst hb
        obtain ⟨j, hj, hja⟩ := List.mem_iff_getElem.1 ha
        have hj' : j < (st.clusters.getD c.2.1 []).length := by simpa using hj
        have := h3 j hj'
        rw [List.getD_eq_getElem _ _ hj, hja] at this
        rw [hsym]
        exact this

/-- Representatives only accumulate: a clustering pass extends each vertex's
representative list. -/
theorem clusterFold_reps_ext {α : Type} (dsq : α → α → ℚ) :
    ∀ (corners : List (Nat × Nat × α)) (st : ClusterState α) (vi : Nat),
      ∃ ext, ((clusterFold dsq st corners).clusters.getD vi []).map Prod.fst
        = ((st.clusters.getD vi []).map Prod.fst) ++ ext := by
  intro corners
  induction corners with
  | nil => intro st vi; exact ⟨[], by simp [clusterFold]⟩
  | cons c rest ih =>
    intro st vi
    obtain ⟨ext, hext⟩ := ih (clusterStep dsq st c) vi
    by_cases hvi : c.2.1 = vi
    · subst hvi
      by_cases hlen : c.2.1 < st.clusters.length
      · have hstep : ((clusterStep dsq st c).clusters.getD c.2.1 [])
            = (insertCorner dsq c.2.2 c.1 (st.clusters.getD c.2.1 [])).2 := by
          simp only [clusterStep]
          exact getD_set_self_of_lt _ _ _ _ hlen
        rcases insertCorner_spec dsq c.2.2 c.1 (st.clusters.getD c.2.1 [])
          with ⟨h1, _, _, _⟩ | ⟨h1, _, _⟩
        · exact ⟨ext, by rw [clusterFold, hext, hstep, h1]⟩
        · exact ⟨[c.2.2] ++ ext, by
            rw [clusterFold, hext, hstep, h1, List.append_assoc]⟩
      · have hstep : (clusterStep dsq st c).clusters.getD c.2.1 []
            = st.clusters.getD c.2.1 [] := by
          simp only [clusterStep]
          rw [List.set_eq_of_length_le (Nat.le_of_not_lt hlen)]
        exact ⟨ext, by rw [clusterFold, hext, hstep]⟩
    · have hstep : (clusterStep dsq st c).clusters.getD vi []
          = st.clusters.getD vi [] := by
        simp only [clusterStep]
        exact getD_set_ne _ _ _ _ _ hvi
      exact ⟨ext, by rw [clusterFold, hext, hstep]⟩

theorem clusterFold_loopInds_stable {α : Type} (dsq : α → α → ℚ) :
    ∀ (corners : List (Nat × Nat × α)) (st : ClusterState α) (li : Nat),
      (∀ c ∈ corners, c.1 ≠ li) →
      (clusterFold dsq st corners).loopInds.getD li 0
        = st.loopInds.getD li 0 := by
  intro corners
  induction corners with
  | nil => intro st li _; rfl
  | cons c rest ih =>
    intro st li hne
    rw [clusterFold, ih _ _ fun c' hc' => hne c' (List.mem_cons_of_mem _ hc')]
    simp only [clusterStep]
    exact getD_set_ne _ _ _ _ _ (hne c (List.mem_cons_self _ _))

/-- First-match assignment survives later corners: the corner's slot is not
rewritten and its vertex's representatives are only extended. -/
theorem clusterFold_preserves_first_match {α : Type} (dsq : α → α → ℚ)
    (corners : List (Nat × Nat × α)) (st : ClusterState α)
    (c : Nat × Nat × α) (hne : ∀ c' ∈ corners, c'.1 ≠ c.1)
    (h : FirstMatch dsq st c) :
    FirstMatch dsq (clusterFold dsq st corners) c := by
  obtain ⟨h1, h2, h3⟩ := h
  obtain ⟨ext, hext⟩ := clusterFold_reps_ext dsq corners st c.2.1
  have hli := clusterFold_loopInds_stable dsq corners st c.1 hne
  refine ⟨?_, ?_, ?_⟩
  · rw [hli, hext, List.length_append]
    omega
  · rw [hli, hext, getD_append_left _ _ _ _ h1]
    exact h2
  · intro j hj
    rw [hli] at hj
    rw [hext, getD_append_left _ _ _ _ (lt_trans hj h1)]
    exact h3 j hj

/-- Every corner of a clustering pass ends up assigned by first-match-wins:
provided corner loop indices are distinct and in range and vertex indices
are in range, the final state satisfies `FirstMatch` for every corner. -/
theorem clusterFold_first_match {α : Type} (dsq : α → α → ℚ) :
    ∀ (corners : List (Nat × Nat × α)) (st : ClusterState α),
      ((corners.map fun c => c.1).Nodup) →
      (∀ c ∈ corners, c.1 < st.loopInds.length) →
      (∀ c ∈ corners, c.2.1 < st.clusters.length) →
      ∀ c ∈ corners, FirstMatch dsq (clusterFold dsq st corners) c := by
  intro corners
  induction corners with
  | nil => intro st _ _ _ c hc; cases hc
  | cons c0 rest ih =>
    intro st hnodup hli hvi c hc
    rw [clusterFold]
    rw [List.map_cons] at hnodup
    obtain ⟨hnotmem, hnodup'⟩ := List.nodup_cons.1 hnodup
    rcases List.mem_cons.1 hc with heq | hc
    · subst heq
      have hli0 := hli c (List.mem_cons_self _ _)
      have hvi0 := hvi c (List.mem_cons_self _ _)
      have hclusters : (clusterStep dsq st c).clusters.getD c.2.1 []
          = (insertCorner dsq c.2.2 c.1 (st.clusters.getD c.2.1 [])).2 := by
        simp only [clusterStep]
        exact getD_set_self_of_lt _ _ _ _ hvi0
      have hloop : (clusterStep dsq st c).loopInds.getD c.1 0
          = (insertCorner dsq c.2.2 c.1 (st.clusters.getD c.2.1 [])).1 := by
        simp only [clusterStep]
        exact getD_set_self_of_lt _ _ _ _ hli0
      have hstepFM : FirstMatch dsq (clusterStep dsq st c) c := by
        rcases insertCorner_spec dsq c.2.2 c.1 (st.clusters.getD c.2.1 [])
          with ⟨h1, h2, h3, h4⟩ | ⟨h1, h2, h3⟩
        · refine ⟨?_, ?_, ?_⟩
          · rw [hloop, hclusters, h1]
            simpa using h2
          · left
            rw [hloop, hclusters, h1]
            exact h3
          · intro j hj
            rw [hloop] at hj
            rw [hclusters, h1]
            exact h4 j hj
        · refine ⟨?_, ?_, ?_⟩
          · rw [hloop, hclusters, h1, h2]
            simp
          · right
            rw [hloop, hclusters, h1, h2]
            have hlen : ((st.clusters.getD c.2.1 []).map Prod.fst).length
                = (st.clusters.getD c.2.1 []).length := List.length_map _ _
            rw [← hlen]
            simp [List.getD_eq_getElem?_getD,
              List.getElem?_append_right (le_refl _)]
          · intro j hj
            rw [hloop, h2] at hj
            rw [hclusters, h1, getD_append_left _ _ _ _ (by simpa using hj)]
            exact h3 j hj
      refine clusterFold_preserves_first_match dsq rest _ c ?_ hstepFM
      intro c' hc' he
      exact hnotmem (by
        rw [← he]
        exact List.mem_map_of_mem _ hc')
    · refine ih (clusterStep dsq st c0) hnodup' ?_ ?_ c hc
      · intro c' hc'
        have := hli c' (List.mem_cons_of_mem _ hc')
        simpa [clusterStep] using this
      · intro c' hc'
        have := hvi c' (List.mem_cons_of_mem _ hc')
        simpa [clusterStep] using this

theorem dsq2_symm : ∀ a b, dsq2 a b = dsq2 b a := by
  intro a b
  unfold dsq2
  ring

theorem dsq3_symm : ∀ a b, dsq3 a b = dsq3 b a := by
  intro a b
  unfold dsq3
  ring

/-- C5 amended.  For both clustering passes: distinct clusters of one vertex
have representatives at squared Euclidean distance AT LEAST `epsSq` (the
distance can equal the tolerance exactly, see the counterexample), and every
corner is assigned to exactly one cluster, by first-match-wins scan in
insertion order.  The hypotheses say the mesh is well-formed: loop vertex
indices are in range, and each loop belongs to exactly one polygon corner. -/
theorem c5_cluster_separation_first_match (mesh : Mesh) (data : List Vec2)
    (hvert : ∀ l ∈ mesh.loops, l.vertex_index < mesh.vertices.length)
    (hnnodup : ((normalCorners mesh).map fun c => c.1).Nodup)
    (hnbound : ∀ c ∈ normalCorners mesh, c.1 < mesh.loops.length) :
    (∀ st, map_vertex_uvs mesh (some data) = .ok st →
      SepClusters dsq2 st ∧ ∀ c ∈ uvCorners mesh data, FirstMatch dsq2 st c) ∧
    (SepClusters dsq3 (map_vertex_normals mesh) ∧
      ∀ c ∈ normalCorners mesh, FirstMatch dsq3 (map_vertex_normals mesh) c) := by
  have hinit2 : SepClusters dsq2
      ⟨List.replicate mesh.vertices.length [],
       List.replicate mesh.loops.length 0⟩ := by
    intro cl hcl
    rw [List.eq_of_mem_replicate hcl]
    simp
  have hinit3 : SepClusters dsq3
      ⟨List.replicate mesh.vertices.length [],
       List.replicate mesh.loops.length 0⟩ := by
    intro cl hcl
    rw [List.eq_of_mem_replicate hcl]
    simp
  constructor
  · intro st hst
    simp only [map_vertex_uvs] at hst
    injection hst with hst
    subst hst
    rw [clusterCorners]
    constructor
    · exact clusterFold_sep dsq2 dsq2_symm _ _ hinit2
    · refine clusterFold_first_match dsq2 _ _ ?_ ?_ ?_
      · have hmapeq : ((uvCorners mesh data).map fun c => c.1)
            = (mesh.loops.zip data).enum.map Prod.fst := by
          simp only [uvCorners, List.map_map]
          rfl
        rw [hmapeq]
        exact List.nodup_enum_map_fst _
      · intro c hcmem
        obtain ⟨p, hp, hcp⟩ := List.mem_map.1 hcmem
        subst hcp
        have hg := List.mem_enum_iff_getElem?.1 hp
        have hlt : p.1 < (mesh.loops.zip data).length :=
          (List.getElem?_eq_some.1 hg).1
        simp only [List.length_replicate]
        refine lt_of_lt_of_le hlt ?_
        rw [List.length_zip]
        exact Nat.min_le_left _ _
      · intro c hcmem
        obtain ⟨p, hp, hcp⟩ := List.mem_map.1 hcmem
        subst hcp
        have hg := List.mem_enum_iff_getElem?.1 hp
        have hz : p.2 ∈ mesh.loops.zip data := List.getElem?_mem hg
        simp only [List.length_replicate]
        exact hvert p.2.1 (List.of_mem_zip (by simpa using hz)).1
  · rw [map_vertex_normals, clusterCorners]
    constructor
    · exact clusterFold_sep dsq3 dsq3_symm _ _ hinit3
    · refine clusterFold_first_match dsq3 _ _ hnnodup ?_ ?_
      · intro c hcmem
        simp only [List.length_replicate]
        exact hnbound c hcmem
      · intro c hcmem
        simp only [List.length_replicate]
        simp only [normalCorners, List.mem_flatten, List.mem_map] at hcmem
        obtain ⟨sub, ⟨poly, hpoly, hsub⟩, hcsub⟩ := hcmem
        subst hsub
        simp only [polygonCorners, List.mem_map] at hcsub
        obtain ⟨i, hi, hceq⟩ := hcsub
        have hib : i < mesh.loops.length := by
          have := hnbound c (by
            simp only [normalCorners, List.mem_flatten, List.mem_map]
            exact ⟨_, ⟨poly, hpoly, rfl⟩, by
              simp only [polygonCorners, List.mem_map]
              exact ⟨i, hi, hceq⟩⟩)
          rw [← hceq] at this
          simpa using this
        have hmem : mesh.loops.getD i ⟨0⟩ ∈ mesh.loops := by
          rw [List.getD_eq_getElem _ _ hib]
          exact List.getElem_mem hib
        rw [← hceq]
        exact hvert _ hmem

theorem c5_cluster_separation_first_match_witness :
    SepClusters dsq3 (map_vertex_normals meshTri) ∧
    FirstMatch dsq3 (map_vertex_normals meshTri) (0, 0, ⟨1, 0, 0⟩) :=
  ⟨(c5_cluster_separation_first_match meshTri [] (by decide) (by decide)
      (by decide)).2.1,
   (c5_cluster_separation_first_match meshTri [] (by decide) (by decide)
      (by decide)).2.2 (0, 0, ⟨1, 0, 0⟩) (by
        norm_num [normalCorners, polygonCorners, meshTri, mvdefault])⟩

/-! ## C6/C7: output index assignment and permutation counts -/

/-- The (uv-cluster, normal-cluster) pair parts of a permutation list. -/
def pairsOf (l : List (Nat × Nat × Nat)) : List (Nat × Nat) :=
  l.map fun p => (p.2.1, p.2.2)

/-- The cluster-index pairs carried by the corners of vertex `vi` within a
processed corner stream. -/
def seenPairs (vi : Nat) (seen : List (Nat × Nat × Nat × Nat)) :
    List (Nat × Nat) :=
  (seen.filter fun c => c.2.1 == vi).map fun c => (c.2.2.1, c.2.2.2)

/-- All assigned output indices, in per-vertex order. -/
def allInds (st : PermState) : List Nat :=
  (st.perms.map fun l => l.map Prod.fst).flatten

theorem findPermLast_some (cu cn : Nat) :
    ∀ (l : List (Nat × Nat × Nat)) (acc : Option Nat) (i : Nat),
      findPermLast cu cn acc l = some i →
      acc = some i ∨ ∃ p ∈ l, p.1 = i ∧ p.2.1 = cu ∧ p.2.2 = cn := by
  intro l
  induction l with
  | nil => intro acc i h; exact Or.inl h
  | cons p rest ih =>
    intro acc i h
    rw [findPermLast] at h
    rcases ih _ i h with h1 | ⟨q, hq, hq'⟩
    · split at h1
      · rename_i hcond
        injection h1 with h1
        exact Or.inr ⟨p, List.mem_cons_self _ _, h1, hcond.1.symm, hcond.2.symm⟩
      · exact Or.inl h1
    · exact Or.inr ⟨q, List.mem_cons_of_mem _ hq, hq'⟩

theorem findPermLast_none (cu cn : Nat) :
    ∀ (l : List (Nat × Nat × Nat)) (acc : Option Nat),
      findPermLast cu cn acc l = none →
      acc = none ∧ (cu, cn) ∉ pairsOf l := by
  intro l
  induction l with
  | nil => intro acc h; exact ⟨h, by simp [pairsOf]⟩
  | cons p rest ih =>
    intro acc h
    rw [findPermLast] at h
    obtain ⟨hacc, hrest⟩ := ih _ h
    constructor
    · split at hacc
      · cases hacc
      · exact hacc
    · intro hmem
      simp only [pairsOf, List.map_cons, List.mem_cons] at hmem
      rcases hmem with h1 | h1
      · injection h1 with e1 e2
        split at hacc
        · cases hacc
        · rename_i hcond
          exact hcond ⟨e1, e2⟩
      · exact hrest (by simpa [pairsOf] using h1)

/-- Flattening after appending one element to the `i`-th sublist permutes to
appending that element at the end. -/
theorem flatten_set_append_perm {γ : Type} :
    ∀ (l : List (List γ)) (i : Nat) (e : γ), i < l.length →
      (l.set i (l.getD i [] ++ [e])).flatten.Perm (l.flatten ++ [e]) := by
  intro l
  induction l with
  | nil => intro i e hi; cases hi
  | cons a as ih =>
    intro i e hi
    match i with
    | 0 =>
      simp only [List.set_cons_zero, List.getD_cons_zero, List.flatten_cons]
      rw [List.append_assoc, List.append_assoc]
      exact List.Perm.append_left a (List.perm_append_comm)
    | i' + 1 =>
      simp only [List.set_cons_succ, List.getD_cons_succ, List.flatten_cons]
      rw [List.append_assoc]
      refine (List.Perm.append_left a (ih i' e (by simpa using hi))).trans ?_
      rw [← List.append_assoc]

theorem mem_allInds (st : PermState) (vi : Nat)
    (p : Nat × Nat × Nat) (hvi : vi < st.perms.length)
    (hp : p ∈ st.perms.getD vi []) : p.1 ∈ allInds st := by
  rw [allInds, List.mem_flatten]
  refine ⟨(st.perms.getD vi []).map Prod.fst, ?_, List.mem_map_of_mem _ hp⟩
  refine List.mem_map.2 ⟨st.perms.getD vi [], ?_, rfl⟩
  rw [List.getD_eq_getElem _ _ hvi]
  exact List.getElem_mem hvi

theorem map_getD_range {γ : Type} (d : γ) :
    ∀ (l : List γ), (List.range l.length).map (fun i => l.getD i d) = l := by
  intro l
  induction l with
  | nil => simp
  | cons a as ih =>
    rw [List.length_cons, List.range_succ_eq_map, List.map_cons, List.map_map]
    refine congrArg₂ List.cons rfl ?_
    refine Eq.trans ?_ ih
    refine List.map_congr_left fun i _ => ?_
    simp [Function.comp]

theorem seenPairs_append (vi : Nat) (seen : List (Nat × Nat × Nat × Nat))
    (c : Nat × Nat × Nat × Nat) :
    seenPairs vi (seen ++ [c])
      = seenPairs vi seen
        ++ (if c.2.1 = vi then [(c.2.2.1, c.2.2.2)] else []) := by
  rw [seenPairs, List.filter_append, List.map_append]
  refine congrArg _ ?_
  by_cases h : c.2.1 = vi
  · simp [h]
  · simp [List.filter_cons, h]

/-- Invariant of the permutation fold relating the state to the already
processed corner stream `seen`: per-vertex pair lists are duplicate-free and
carry exactly the pairs seen for that vertex; output indices are distinct,
below `c_index`, exactly `c_index` many, and increasing within each vertex;
processed corners hold output indices below `c_index`, which never exceeds
the number of processed corners. -/
structure PermInv (st : PermState) (seen : List (Nat × Nat × Nat × Nat)) :
    Prop where
  nodupPairs : ∀ vi, (pairsOf (st.perms.getD vi [])).Nodup
  pairsSeen : ∀ vi, (pairsOf (st.perms.getD vi [])).toFinset
      = (seenPairs vi seen).toFinset
  indsBound : ∀ x ∈ allInds st, x < st.cIndex
  indsNodup : (allInds st).Nodup
  indsLen : (allInds st).length = st.cIndex
  indsMono : ∀ l ∈ st.perms, (l.map Prod.fst).Pairwise (· < ·)
  loopBound : ∀ c ∈ seen, st.loopInds.getD c.1 0 < st.cIndex
  cLe : st.cIndex ≤ seen.length

theorem permStep_loopInds_length (st : PermState) (c : Nat × Nat × Nat × Nat) :
    (permStep st c).loopInds.length = st.loopInds.length := by
  rw [permStep]
  split <;> simp

theorem permStep_perms_length (st : PermState) (c : Nat × Nat × Nat × Nat) :
    (permStep st c).perms.length = st.perms.length := by
  rw [permStep]
  split <;> simp

/-- One step of the permutation enumeration preserves the invariant. -/
theorem permStep_inv (st : PermState) (seen : List (Nat × Nat × Nat × Nat))
    (c : Nat × Nat × Nat × Nat) (inv : PermInv st seen)
    (hli : c.1 < st.loopInds.length) (hvi : c.2.1 < st.perms.length) :
    PermInv (permStep st c) (seen ++ [c]) := by
  cases hfind : findPermLast c.2.2.1 c.2.2.2 none (st.perms.getD c.2.1 []) with
  | some ind =>
    have hstep : permStep st c
        = ⟨st.perms, st.loopInds.set c.1 ind, st.cIndex⟩ := by
      rw [permStep, hfind]
    rcases findPermLast_some _ _ _ _ _ hfind with h1 | ⟨p, hp, hp1, hp2, hp3⟩
    · cases h1
    have hindlt : ind < st.cIndex := by
      rw [← hp1]
      exact inv.indsBound _ (mem_allInds st c.2.1 p hvi hp)
    have hpairmem : ∀ vi, c.2.1 = vi →
        (c.2.2.1, c.2.2.2) ∈ pairsOf (st.perms.getD vi []) := by
      intro vi hvic
      rw [← hvic]
      exact List.mem_map.2 ⟨p, hp, by rw [hp2, hp3]⟩
    rw [hstep]
    refine ⟨inv.nodupPairs, ?_, inv.indsBound, inv.indsNodup, inv.indsLen,
      inv.indsMono, ?_, ?_⟩
    · intro vi
      rw [seenPairs_append]
      by_cases hvic : c.2.1 = vi
      · rw [if_pos hvic, List.toFinset_append, ← inv.pairsSeen vi]
        refine (Finset.union_eq_left.2 ?_).symm
        intro x hx
        simp only [List.toFinset_cons, List.toFinset_nil,
          insert_emptyc_eq, Finset.mem_singleton] at hx
        subst hx
        exact List.mem_toFinset.2 (hpairmem vi hvic)
      · rw [if_neg hvic, List.append_nil]
        exact inv.pairsSeen vi
    · intro c' hc'
      rcases List.mem_append.1 hc' with h2 | h2
      · by_cases he : c.1 = c'.1
        · rw [← he, getD_set_self_of_lt _ _ _ _ hli]
          exact hindlt
        · rw [getD_set_ne _ _ _ _ _ he]
          exact inv.loopBound c' h2
      · rw [List.mem_singleton] at h2
        subst h2
        rw [getD_set_self_of_lt _ _ _ _ hli]
        exact hindlt
    · rw [List.length_append]
      exact le_trans inv.cLe (by simp)
  | none =>
    have hstep : permStep st c
        = ⟨st.perms.set c.2.1
            (st.perms.getD c.2.1 [] ++ [(st.cIndex, c.2.2.1, c.2.2.2)]),
          st.loopInds.set c.1 st.cIndex, st.cIndex + 1⟩ := by
      rw [permStep, hfind]
    have hnotmem :=
      (findPermLast_none c.2.2.1 c.2.2.2 (st.perms.getD c.2.1 []) none hfind).2
    have hmap : (st.perms.getD c.2.1 []
          ++ [(st.cIndex, c.2.2.1, c.2.2.2)]).map Prod.fst
        = (st.perms.map fun l => l.map Prod.fst).getD c.2.1 [] ++ [st.cIndex] := by
      rw [List.map_append]
      refine congrArg₂ _ ?_ rfl
      rw [List.getD_eq_getElem _ _ hvi,
        List.getD_eq_getElem _ _ (by simpa using hvi), List.getElem_map]
    have hperm : (allInds ⟨st.perms.set c.2.1
          (st.perms.getD c.2.1 [] ++ [(st.cIndex, c.2.2.1, c.2.2.2)]),
        st.loopInds.set c.1 st.cIndex, st.cIndex + 1⟩).Perm
        (allInds st ++ [st.cIndex]) := by
      show ((st.perms.set c.2.1 _).map fun l => l.map Prod.fst).flatten.Perm _
      rw [List.map_set, hmap]
      exact flatten_set_append_perm _ _ _ (by simpa using hvi)
    rw [hstep]
    refine ⟨?_, ?_, ?_, ?_, ?_, ?_, ?_, ?_⟩
    · intro vi
      by_cases hvic : c.2.1 = vi
      · rw [← hvic, getD_set_self_of_lt _ _ _ _ hvi]
        rw [pairsOf, List.map_append]
        refine List.Nodup.append (inv.nodupPairs c.2.1) (by simp) ?_
        intro x hx hx'
        simp only [List.map_cons, List.map_nil, List.mem_singleton] at hx'
        subst hx'
        exact hnotmem hx
      · rw [getD_set_ne _ _ _ _ _ hvic]
        exact inv.nodupPairs vi
    · intro vi
      rw [seenPairs_append]
      by_cases hvic : c.2.1 = vi
      · rw [if_pos hvic, ← hvic, getD_set_self_of_lt _ _ _ _ hvi]
        rw [pairsOf, List.map_append, List.toFinset_append, List.toFinset_append]
        exact congrArg₂ _ (inv.pairsSeen c.2.1) rfl
      · rw [if_neg hvic, List.append_nil, getD_set_ne _ _ _ _ _ hvic]
        exact inv.pairsSeen vi
    · intro x hx
      rcases List.mem_append.1 (hperm.mem_iff.1 hx) with h2 | h2
      · exact lt_trans (inv.indsBound x h2) (Nat.lt_succ_self _)
      · rw [List.mem_singleton] at h2
        rw [h2]
        exact Nat.lt_succ_self _
    · refine hperm.nodup_iff.2 ?_
      refine List.Nodup.append inv.indsNodup (by simp) ?_
      intro x hx hx'
      rw [List.mem_singleton] at hx'
      subst hx'
      exact absurd (inv.indsBound _ hx) (lt_irrefl _)
    · rw [hperm.length_eq, List.length_append, inv.indsLen]
      rfl
    · intro l hl
      rcases List.mem_or_eq_of_mem_set hl with h2 | h2
      · exact inv.indsMono l h2
      · subst h2
        rw [List.map_append, List.pairwise_append]
        refine ⟨inv.indsMono _ ?_, by simp, ?_⟩
        · rw [List.getD_eq_getElem _ _ hvi]
          exact List.getElem_mem hvi
        · intro a ha b hb
          simp only [List.map_cons, List.map_nil, List.mem_singleton] at hb
          subst hb
          obtain ⟨p, hp, hpa⟩ := List.mem_map.1 ha
          rw [← hpa]
          exact inv.indsBound _ (mem_allInds st c.2.1 p hvi hp)
    · intro c' hc'
      rcases List.mem_append.1 hc' with h2 | h2
      · by_cases he : c.1 = c'.1
        · rw [← he, getD_set_self_of_lt _ _ _ _ hli]
          exact Nat.lt_succ_self _
        · rw [getD_set_ne _ _ _ _ _ he]
          exact lt_trans (inv.loopBound c' h2) (Nat.lt_succ_self _)
      · rw [List.mem_singleton] at h2
        subst h2
        rw [getD_set_self_of_lt _ _ _ _ hli]
        exact Nat.lt_succ_self _
    · rw [List.length_append]
      simpa using Nat.succ_le_succ inv.cLe

theorem permFold_inv :
    ∀ (corners : List (Nat × Nat × Nat × Nat)) (st : PermState)
      (seen : List (Nat × Nat × Nat × Nat)),
      PermInv st seen →
      (∀ c ∈ corners, c.1 < st.loopInds.length) →
      (∀ c ∈ corners, c.2.1 < st.perms.length) →
      PermInv (permFold st corners) (seen ++ corners) := by
  intro corners
  induction corners with
  | nil => intro st seen inv _ _; simpa using inv
  | cons c rest ih =>
    intro st seen inv hli hvi
    rw [permFold]
    have hstep := permStep_inv st seen c inv (hli c (List.mem_cons_self _ _))
      (hvi c (List.mem_cons_self _ _))
    have hrec := ih (permStep st c) (seen ++ [c]) hstep
      (fun c' hc' => by
        rw [permStep_loopInds_length]
        exact hli c' (List.mem_cons_of_mem _ hc'))
      (fun c' hc' => by
        rw [permStep_perms_length]
        exact hvi c' (List.mem_cons_of_mem _ hc'))
    simpa using hrec

theorem permInv_init (numVerts numLoops : Nat) :
    PermInv ⟨List.replicate numVerts [], List.replicate numLoops 0, 0⟩ [] := by
  have hgetD : ∀ vi, (List.replicate numVerts
      ([] : List (Nat × Nat × Nat))).getD vi [] = [] := by
    intro vi
    rcases getD_mem_or_default (List.replicate numVerts
      ([] : List (Nat × Nat × Nat))) vi [] with h | h
    · exact List.eq_of_mem_replicate h
    · exact h
  have hall : allInds ⟨List.replicate numVerts [],
      List.replicate numLoops 0, 0⟩ = [] := by
    simp [allInds, List.map_replicate]
  refine ⟨?_, ?_, ?_, ?_, ?_, ?_, ?_, ?_⟩
  · intro vi
    rw [hgetD vi]
    simp [pairsOf]
  · intro vi
    rw [hgetD vi]
    simp [pairsOf, seenPairs]
  · intro x hx
    rw [hall] at hx
    cases hx
  · rw [hall]
    exact List.nodup_nil
  · rw [hall]
    rfl
  · intro l hl
    rw [List.eq_of_mem_replicate hl]
    simp
  · intro c hc
    cases hc
  · exact le_refl 0

theorem permCorners_fst_bound (mesh : Mesh) (u n : List Nat)
    (c : Nat × Nat × Nat × Nat) (hc : c ∈ permCorners mesh u n) :
    c.1 < mesh.loops.length := by
  obtain ⟨p, hp, hcp⟩ := List.mem_map.1 hc
  subst hcp
  have hg := List.mem_enum_iff_getElem?.1 hp
  have hlt := (List.getElem?_eq_some.1 hg).1
  rw [List.length_zip] at hlt
  exact lt_of_lt_of_le hlt (Nat.min_le_left _ _)

theorem permCorners_vi_bound (mesh : Mesh) (u n : List Nat)
    (hvert : ∀ l ∈ mesh.loops, l.vertex_index < mesh.vertices.length)
    (c : Nat × Nat × Nat × Nat) (hc : c ∈ permCorners mesh u n) :
    c.2.1 < mesh.vertices.length := by
  obtain ⟨p, hp, hcp⟩ := List.mem_map.1 hc
  subst hcp
  have hg := List.mem_enum_iff_getElem?.1 hp
  have hz : p.2 ∈ mesh.loops.zip (u.zip n) := List.getElem?_mem hg
  exact hvert p.2.1 (List.of_mem_zip (by simpa using hz)).1

theorem permCorners_fst_nodup (mesh : Mesh) (u n : List Nat) :
    ((permCorners mesh u n).map fun c => c.1).Nodup := by
  have hmapeq : ((permCorners mesh u n).map fun c => c.1)
      = (mesh.loops.zip (u.zip n)).enum.map Prod.fst := by
    simp only [permCorners, List.map_map]
    rfl
  rw [hmapeq]
  exact List.nodup_enum_map_fst _

theorem permCorners_covers (mesh : Mesh) (u n : List Nat)
    (hu : u.length = mesh.loops.length) (hn : n.length = mesh.loops.length)
    (j : Nat) (hj : j < mesh.loops.length) :
    ∃ c ∈ permCorners mesh u n, c.1 = j := by
  have hlen : (mesh.loops.zip (u.zip n)).length = mesh.loops.length := by
    simp [List.length_zip, hu, hn]
  have hmapeq : ((permCorners mesh u n).map fun c => c.1)
      = List.range mesh.loops.length := by
    have h1 : ((permCorners mesh u n).map fun c => c.1)
        = (mesh.loops.zip (u.zip n)).enum.map Prod.fst := by
      simp only [permCorners, List.map_map]
      rfl
    rw [h1]
    simp [hlen]
  have : j ∈ (permCorners mesh u n).map fun c => c.1 := by
    rw [hmapeq]
    exact List.mem_range.2 hj
  obtain ⟨c, hc, hcj⟩ := List.mem_map.1 this
  exact ⟨c, hc, hcj⟩

theorem permCorners_map_vi (mesh : Mesh) (u n : List Nat)
    (hu : u.length = mesh.loops.length) (hn : n.length = mesh.loops.length) :
    (permCorners mesh u n).map (fun c => c.2.1)
      = mesh.loops.map MLoop.vertex_index := by
  have h1 : (permCorners mesh u n).map (fun c => c.2.1)
      = (mesh.loops.zip (u.zip n)).enum.map fun p => p.2.1.vertex_index := by
    simp only [permCorners, List.map_map]
    rfl
  have h2 : (mesh.loops.zip (u.zip n)).enum.map (fun p => p.2.1.vertex_index)
      = ((mesh.loops.zip (u.zip n)).enum.map Prod.snd).map
          fun q => q.1.vertex_index := by
    rw [List.map_map]
    rfl
  have h3 : (mesh.loops.zip (u.zip n)).map (fun q => q.1.vertex_index)
      = ((mesh.loops.zip (u.zip n)).map Prod.fst).map MLoop.vertex_index := by
    rw [List.map_map]
    rfl
  rw [h1, h2]
  simp only [List.enum_map_snd]
  rw [h3, List.map_fst_zip]
  rw [List.length_zip, hu, hn]
  simp

theorem tri_inds_length (mesh : Mesh) (loopInds : List Nat) :
    (tri_inds mesh loopInds).length = 3 * mesh.loop_triangles.length := by
  rw [tri_inds]
  generalize mesh.loop_triangles = ts
  induction ts with
  | nil => rfl
  | cons t rest ih =>
    simp only [List.map_cons, List.flatten_cons, List.length_append,
      List.length_cons, ih]
    simp
    ring

theorem permFold_perms_length :
    ∀ (corners : List (Nat × Nat × Nat × Nat)) (st : PermState),
      (permFold st corners).perms.length = st.perms.length := by
  intro corners
  induction corners with
  | nil => intro st; rfl
  | cons c rest ih =>
    intro st
    rw [permFold, ih, permStep_perms_length]

/-- The invariant holds of the finished permutation table. -/
theorem find_vertex_permutations_inv (mesh : Mesh) (u n : List Nat)
    (hvert : ∀ l ∈ mesh.loops, l.vertex_index < mesh.vertices.length) :
    PermInv (find_vertex_permutations mesh u n) (permCorners mesh u n) := by
  rw [find_vertex_permutations]
  have := permFold_inv (permCorners mesh u n)
    ⟨List.replicate mesh.vertices.length [],
     List.replicate mesh.loops.length 0, 0⟩
    [] (permInv_init _ _)
    (fun c hc => by simpa using permCorners_fst_bound mesh u n c hc)
    (fun c hc => by simpa using permCorners_vi_bound mesh u n hvert c hc)
  simpa using this

/-- C6.  Output vertex indices are assigned contiguously from 0 (distinct,
increasing within each vertex, and jointly covering exactly
`0 .. c_index - 1`); the total output vertex count is the number of distinct
(uv-cluster, normal-cluster) pairs summed over all source vertices, and is
at most the corner count; every value in the emitted index buffer is below
the vertex count and the index buffer length is `3 * triangleCount`, a
multiple of 3. -/
theorem c6_index_assignment (mesh : Mesh) (u n : List Nat)
    (hu : u.length = mesh.loops.length) (hn : n.length = mesh.loops.length)
    (hvert : ∀ l ∈ mesh.loops, l.vertex_index < mesh.vertices.length)
    (ht : ∀ t ∈ mesh.loop_triangles, t.loops.1 < mesh.loops.length ∧
      t.loops.2.1 < mesh.loops.length ∧ t.loops.2.2 < mesh.loops.length) :
    (allInds (find_vertex_permutations mesh u n)).Nodup ∧
    (allInds (find_vertex_permutations mesh u n)).toFinset
      = Finset.range (find_vertex_permutations mesh u n).cIndex ∧
    (∀ l ∈ (find_vertex_permutations mesh u n).perms,
      (l.map Prod.fst).Pairwise (· < ·)) ∧
    (find_vertex_permutations mesh u n).cIndex
      = ((List.range mesh.vertices.length).map
          fun vi => (seenPairs vi (permCorners mesh u n)).toFinset.card).sum ∧
    (find_vertex_permutations mesh u n).cIndex ≤ mesh.loops.length ∧
    (∀ x ∈ tri_inds mesh (find_vertex_permutations mesh u n).loopInds,
      x < (find_vertex_permutations mesh u n).cIndex) ∧
    (tri_inds mesh (find_vertex_permutations mesh u n).loopInds).length
      = 3 * mesh.loop_triangles.length ∧
    (tri_inds mesh (find_vertex_permutations mesh u n).loopInds).length % 3
      = 0 := by
  have inv := find_vertex_permutations_inv mesh u n hvert
  have hplen : (find_vertex_permutations mesh u n).perms.length
      = mesh.vertices.length := by
    rw [find_vertex_permutations, permFold_perms_length]
    simp
  refine ⟨inv.indsNodup, ?_, inv.indsMono, ?_, ?_, ?_, tri_inds_length _ _, ?_⟩
  · refine Finset.eq_of_subset_of_card_le ?_ ?_
    · intro x hx
      exact Finset.mem_range.2 (inv.indsBound x (List.mem_toFinset.1 hx))
    · rw [Finset.card_range, List.toFinset_card_of_nodup inv.indsNodup,
        inv.indsLen]
  · have h1 : (find_vertex_permutations mesh u n).cIndex
        = (allInds (find_vertex_permutations mesh u n)).length :=
      inv.indsLen.symm
    rw [h1, allInds, List.length_flatten, List.map_map]
    have h2 : ((find_vertex_permutations mesh u n).perms.map
          (List.length ∘ fun l => l.map Prod.fst))
        = (find_vertex_permutations mesh u n).perms.map List.length := by
      refine List.map_congr_left fun l _ => ?_
      simp
    rw [h2]
    have h3 := map_getD_range ([] : List (Nat × Nat × Nat))
      (find_vertex_permutations mesh u n).perms
    conv_lhs => rw [← h3]
    rw [List.map_map, hplen]
    refine congrArg _ (List.map_congr_left fun vi _ => ?_)
    show ((find_vertex_permutations mesh u n).perms.getD vi []).length = _
    have h4 : ((find_vertex_permutations mesh u n).perms.getD vi []).length
        = (pairsOf ((find_vertex_permutations mesh u n).perms.getD vi [])).length := by
      simp [pairsOf]
    rw [h4, ← List.toFinset_card_of_nodup (inv.nodupPairs vi),
      inv.pairsSeen vi]
  · refine le_trans inv.cLe ?_
    simp only [permCorners, List.length_map, List.enum_length, List.length_zip]
    exact Nat.min_le_left _ _
  · intro x hx
    have key : ∀ j, j < mesh.loops.length →
        (find_vertex_permutations mesh u n).loopInds.getD j 0
          < (find_vertex_permutations mesh u n).cIndex := by
      intro j hj
      obtain ⟨c, hc, hcj⟩ := permCorners_covers mesh u n hu hn j hj
      rw [← hcj]
      exact inv.loopBound c hc
    rw [tri_inds] at hx
    simp only [List.mem_flatten, List.mem_map] at hx
    obtain ⟨sub, ⟨t, hts, hsub⟩, hxsub⟩ := hx
    subst hsub
    obtain ⟨h1, h2, h3⟩ := ht t hts
    simp only [List.mem_cons, List.not_mem_nil, or_false] at hxsub
    rcases hxsub with h | h | h
    · exact h ▸ key _ h1
    · exact h ▸ key _ h2
    · exact h ▸ key _ h3
  · rw [tri_inds_length]
    omega

/-- C7 amended.  For every source vertex: the permutation count is at most
the number of corners touching the vertex, and is at least 1 whenever at
least one corner touches it (a loose vertex gets 0 permutations, see the
counterexample). -/
theorem c7_permutation_bounds (mesh : Mesh) (u n : List Nat)
    (hu : u.length = mesh.loops.length) (hn : n.length = mesh.loops.length)
    (hvert : ∀ l ∈ mesh.loops, l.vertex_index < mesh.vertices.length) :
    ∀ vi, vi < mesh.vertices.length →
      ((find_vertex_permutations mesh u n).perms.getD vi []).length
          ≤ mesh.loops.countP (fun l => l.vertex_index == vi) ∧
      (0 < mesh.loops.countP (fun l => l.vertex_index == vi) →
        1 ≤ ((find_vertex_permutations mesh u n).perms.getD vi []).length) := by
  intro vi _
  have inv := find_vertex_permutations_inv mesh u n hvert
  have hlen : ((find_vertex_permutations mesh u n).perms.getD vi []).length
      = (seenPairs vi (permCorners mesh u n)).toFinset.card := by
    have h4 : ((find_vertex_permutations mesh u n).perms.getD vi []).length
        = (pairsOf ((find_vertex_permutations mesh u n).perms.getD vi [])).length := by
      simp [pairsOf]
    rw [h4, ← List.toFinset_card_of_nodup (inv.nodupPairs vi),
      inv.pairsSeen vi]
  have hcount : (seenPairs vi (permCorners mesh u n)).length
      = mesh.loops.countP (fun l => l.vertex_index == vi) := by
    rw [seenPairs, List.length_map, ← List.countP_eq_length_filter]
    have h1 : (permCorners mesh u n).countP (fun c => c.2.1 == vi)
        = ((permCorners mesh u n).map fun c => c.2.1).countP (· == vi) := by
      rw [List.countP_map]
      rfl
    rw [h1, permCorners_map_vi mesh u n hu hn, List.countP_map]
    rfl
  constructor
  · rw [hlen, ← hcount]
    exact List.toFinset_card_le _
  · intro hpos
    rw [hlen]
    rw [← hcount] at hpos
    have hne : seenPairs vi (permCorners mesh u n) ≠ [] := by
      intro he
      rw [he] at hpos
      simp at hpos
    obtain ⟨x, hx⟩ := List.exists_mem_of_ne_nil _ hne
    exact Finset.card_pos.2 ⟨x, List.mem_toFinset.2 hx⟩

theorem c6_index_assignment_witness :
    (allInds (find_vertex_permutations meshTri [0, 0, 0] [0, 0, 0])).Nodup ∧
    (tri_inds meshTri
      (find_vertex_permutations meshTri [0, 0, 0] [0, 0, 0]).loopInds).length % 3
      = 0 :=
  ⟨(c6_index_assignment meshTri [0, 0, 0] [0, 0, 0] rfl rfl (by decide)
      (by decide)).1,
   (c6_index_assignment meshTri [0, 0, 0] [0, 0, 0] rfl rfl (by decide)
      (by decide)).2.2.2.2.2.2.2⟩

theorem c7_permutation_bounds_witness :
    ((find_vertex_permutations meshTri [0, 0, 0] [0, 0, 0]).perms.getD 0
        []).length
      ≤ meshTri.loops.countP (fun l => l.vertex_index == 0) ∧
    1 ≤ ((find_vertex_permutations meshTri [0, 0, 0] [0, 0, 0]).perms.getD 0
        []).length :=
  ⟨(c7_permutation_bounds meshTri [0, 0, 0] [0, 0, 0] rfl rfl (by decide) 0
      (by decide)).1,
   (c7_permutation_bounds meshTri [0, 0, 0] [0, 0, 0] rfl rfl (by decide) 0
      (by decide)).2 (by decide)⟩
